import Mathlib

/-!
# azure-devops-profiler: a shallow embedding of `main.go`

The program polls two endpoints of a build-orchestration API for every configured agent
pool, tallies per-pool counters and appends a textual summary to the pool's log file.

The embedding follows `main.go` function by function:

* `doRequest`          (lines 18-52)
* `getPoolAgentData`   (lines 54-115); its loop body is `agentStep`, the assignments after
  the loop are `agentSummary`, the eight `Sprintf` lines are `Env.agentReport`
* `getPoolBuildData`   (lines 117-174); its loop body is `buildStep`, made of the two
  conditionals `queuedBranch` and `runningBranch`
* the pool loop of `main` (lines 194-219): `processPool` and `mainLoop`

Conventions:

* Go run-time panics (nil dereference, failed type assertion, the explicit `panic`) are
  explicit: every function returns an `Outcome`.
* The behaviour of the standard library and of the platform (URL parsing, the network, the
  JSON decoder, the clock, the rendering of a record by `fmt`) is a parameter, `Env`.
* A log file is the text written to it so far; ignored write errors
  (`_, _ = logFile.WriteString`) are modelled as writes that succeed. Console diagnostics
  (`log.Println`, `fmt.Println`) and the five-second pause are not part of the state.
* Go `int` counters are `Int`: a counter never exceeds the number of decoded records, and
  a slice of records that fits in memory has far fewer than `2 ^ 53` elements.
* `float64` is modelled exactly: a finite value is `± mant * 2 ^ exp`, and the operations
  round the exact rational result to nearest, ties to even, as IEEE-754 binary64 does.
-/

set_option maxRecDepth 100000

namespace ADOProfiler

/-! ## Results of running Go code -/

/-- The result of running a Go function: it returns a value, or a run-time panic unwinds it. -/
inductive Outcome (α : Type) where
  | returned (a : α)
  | panicked
  deriving DecidableEq

/-! ## IEEE-754 binary64 (`float64`) -/

/-- A `float64` value: NaN, a signed infinity, or the finite number `± mant * 2 ^ exp`. -/
inductive F64 where
  | nan
  | inf (neg : Bool)
  | fin (neg : Bool) (mant : Nat) (exp : Int)
  deriving DecidableEq

/-- The number of binary digits of `n`, computed with `fuel` halvings. -/
def bitLenAux : Nat → Nat → Nat
  | 0, _ => 0
  | fuel + 1, n => if n = 0 then 0 else bitLenAux fuel (n / 2) + 1

/-- The number of binary digits of `n` (`0` for `0`). -/
def bitLen (n : Nat) : Nat := bitLenAux n n

/-- Whether `2 ^ k ≤ n / d`, for `d > 0`, decided in integer arithmetic. -/
def pow2Le (k : Int) (n d : Nat) : Bool :=
  if 0 ≤ k then decide (d * 2 ^ k.toNat ≤ n) else decide (d ≤ n * 2 ^ (-k).toNat)

/-- The exponent of the last mantissa bit of the binary64 numbers around `n / d`, for
`n, d > 0`: `⌊log₂ (n / d)⌋ - 52`, and `-1074` in the subnormal range. -/
def ulpExp (n d : Nat) : Int :=
  let k0 : Int := (bitLen n : Int) - (bitLen d : Int)
  let k : Int := if pow2Le k0 n d then k0 else k0 - 1
  max (k - 52) (-1074)

/-- The integer nearest to `n / d`, ties going to the even neighbour. -/
def roundQuot (n d : Nat) : Nat :=
  let q := n / d
  let r := n % d
  if d < 2 * r then q + 1
  else if 2 * r = d ∧ q % 2 = 1 then q + 1
  else q

/-- The integer nearest to `n / d / 2 ^ e`, ties going to the even neighbour. -/
def scaledQuot (n d : Nat) (e : Int) : Nat :=
  if 0 ≤ e then roundQuot n (d * 2 ^ e.toNat) else roundQuot (n * 2 ^ (-e).toNat) d

/-- The rational `± n / d` rounded to binary64, round-to-nearest, ties-to-even: the
mantissa is `n / d` in units of the last place, rounded; a result of `2 ^ 1024` or more
is an infinity. -/
def F64.round (neg : Bool) (n d : Nat) : F64 :=
  if n = 0 then .fin neg 0 0
  else
    let e := ulpExp n d
    let m := scaledQuot n d e
    if 971 < e ∨ (e = 971 ∧ 2 ^ 53 ≤ m) then .inf neg else .fin neg m e

/-- Go conversion `float64(i)` of an `int`. -/
def F64.ofInt (i : Int) : F64 := F64.round (decide (i < 0)) i.natAbs 1

/-- Go `x / y` on `float64`. -/
def F64.div : F64 → F64 → F64
  | .nan, _ => .nan
  | _, .nan => .nan
  | .inf _, .inf _ => .nan
  | .inf s, .fin t _ _ => .inf (xor s t)
  | .fin s _ _, .inf t => .fin (xor s t) 0 0
  | .fin s m e, .fin t m' e' =>
    if m' = 0 then (if m = 0 then .nan else .inf (xor s t))
    else F64.round (xor s t) (m * 2 ^ (e - e').toNat) (m' * 2 ^ (e' - e).toNat)

/-- Go `x * y` on `float64`. -/
def F64.mul : F64 → F64 → F64
  | .nan, _ => .nan
  | _, .nan => .nan
  | .inf s, .inf t => .inf (xor s t)
  | .inf s, .fin t m _ => if m = 0 then .nan else .inf (xor s t)
  | .fin s m _, .inf t => if m = 0 then .nan else .inf (xor s t)
  | .fin s m e, .fin t m' e' =>
    F64.round (xor s t) (m * m' * 2 ^ (e + e').toNat) (2 ^ (-(e + e')).toNat)

/-- The rational value of a finite `float64`; `none` for NaN and the infinities. -/
def F64.toRat? : F64 → Option ℚ
  | .fin neg m e => some ((if neg then -1 else 1) * (m : ℚ) * (2 : ℚ) ^ e)
  | _ => none

/-! ## Decoded JSON -/

/-- What `encoding/json` stores into an `interface{}`: `nil`, `bool`, `float64`, `string`,
`[]interface{}` or `map[string]interface{}`. A map is its list of entries, read by `lookup`. -/
inductive Value where
  | null
  | bool (b : Bool)
  | number (f : F64)
  | string (s : String)
  | array (elems : List Value)
  | object (fields : List (String × Value))

/-- Go map read `m[k]` with the comma-ok result: `none` when the key is absent. -/
def lookup (k : String) : List (String × Value) → Option Value
  | [] => none
  | (k', v) :: rest => if k' = k then some v else lookup k rest

/-- The `ok` of `_, ok := m[k]`. -/
def hasKey (k : String) (m : List (String × Value)) : Bool := (lookup k m).isSome

/-- The value of a map read `m[k]` used as an expression: an absent key reads as `nil`. -/
def mapRead (k : String) (m : List (String × Value)) : Value := (lookup k m).getD .null

/-- The type assertion `v.(bool)`: `none` when it fails, which panics. -/
def Value.asBool : Value → Option Bool
  | .bool b => some b
  | _ => none

/-- The type assertion `v.(string)`: `none` when it fails, which panics. -/
def Value.asString : Value → Option String
  | .string s => some s
  | _ => none

/-- The type assertion `v.([]interface{})`: `none` when it fails, which panics. -/
def Value.asArray : Value → Option (List Value)
  | .array elems => some elems
  | _ => none

/-- The type assertion `v.(map[string]interface{})`: `none` when it fails, which panics. -/
def Value.asObject : Value → Option (List (String × Value))
  | .object fields => some fields
  | _ => none

/-- The comparison `v == s` of an interface value with a string constant: the value must
hold a string, and an equal one. -/
def Value.eqString (v : Value) (s : String) : Bool :=
  match v with
  | .string t => decide (t = s)
  | _ => false

/-! ## The environment -/

/-- The `*http.Request` the program builds: its URL and the basic-auth credentials set on it. -/
structure Request where
  url : String
  basicAuth : Option (String × String)
  deriving DecidableEq

/-- ASCII control bytes, which `net/url` rejects in a URL. -/
def isCTL (c : Char) : Bool := decide (c.toNat < 32) || decide (c.toNat = 127)

/-- The part of a URL before its fragment: `url.Parse` cuts the text at the first `#`
before it parses it. -/
def beforeFragment (url : String) : List Char := url.data.takeWhile (fun c => c != '#')

/-- Standard-library and platform behaviour the program depends on. -/
structure Env where
  /-- The package variable `ADOToken`, read from the process environment at start-up. -/
  ADOToken : String
  /-- The package variable `ADOUrl`. -/
  ADOUrl : String
  /-- Whether `url.Parse`, called by `http.NewRequest`, accepts the URL. -/
  urlParses : String → Bool
  /-- The call `http.DefaultClient.Do` and the `ioutil.ReadAll` of the body: `none` when no
  response comes back, otherwise the bytes that were read (all of the body, or the part
  read before a read error). -/
  roundTrip : Request → Option (List UInt8)
  /-- The call `json.Unmarshal(body, &data)` for `data : map[string]interface{}`: `none`
  when it reports an error, otherwise the entries of `data` (none for a `nil` map). -/
  jsonUnmarshal : List UInt8 → Option (List (String × Value))
  /-- The duration `time.Now().Sub(t)` as `%s` prints it, where `t` is what
  `time.Parse(time.RFC3339, stamp)` yields, during the build collection of pool `poolID`. -/
  elapsed : (poolID : String) → (stamp : String) → String
  /-- The shortest decimal form `%v` prints for a finite `float64`. -/
  fmtFloat : F64 → String
  /-- What `%s` prints for a dynamic value that is not a string. -/
  fmtOther : Value → String
  /-- Whether `os.Create` succeeds on the path. -/
  createOk : String → Bool
  /-- The first check of `url.Parse`: a control byte before the fragment is an error. -/
  urlParses_ctl : ∀ url : String, (beforeFragment url).any isCTL = true → urlParses url = false
  /-- The decoder rejects empty input (`unexpected end of JSON input`). -/
  jsonUnmarshal_empty : jsonUnmarshal [] = none

/-- The call `http.NewRequest(http.MethodGet, url, nil)`: `none` stands for the result
`(nil, err)`. -/
def Env.newRequest (env : Env) (url : String) : Option Request :=
  if env.urlParses url then some { url := url, basicAuth := none } else none

/-- The method `(*http.Request).SetBasicAuth`. -/
def Request.setBasicAuth (r : Request) (user pass : String) : Request :=
  { r with basicAuth := some (user, pass) }

/-! ## `doRequest` -/

/-- The function `doRequest` (lines 18-52). A request-construction error is only logged, so
`request` is `nil` when `SetBasicAuth` is called on it, and the call panics. A transport
error is logged and `response` is `nil`: the empty byte slice is returned. Otherwise what
`ioutil.ReadAll` read is returned, a read error being logged only. -/
def doRequest (env : Env) (organizationUrl : String) : Outcome (List UInt8) :=
  match env.newRequest organizationUrl with
  | none => .panicked
  | some request =>
    match env.roundTrip (request.setBasicAuth "" env.ADOToken) with
    | some bodyBytes => .returned bodyBytes
    | none => .returned []

/-! ## `fmt` verbs -/

/-- The verb `%v` on an `int`. -/
def fmtInt (i : Int) : String := toString i

/-- The verb `%v` on a `float64`. -/
def Env.fmtF64 (env : Env) : F64 → String
  | .nan => "NaN"
  | .inf false => "+Inf"
  | .inf true => "-Inf"
  | f => env.fmtFloat f

/-- The verb `%s` on an `interface{}` holding a decoded JSON value: a string is printed as
it is; what `fmt` prints for the other dynamic values (`nil`, `bool`, `float64`, slices and
maps) is the environment's `fmtOther`. -/
def Env.fmtS (env : Env) : Value → String
  | .string s => s
  | v => env.fmtOther v

/-! ## `getPoolAgentData` -/

/-- The integer counters of `getPoolAgentData` that the loop updates. -/
structure AgentCounters where
  totalAgents : Int
  activeAgents : Int
  enabledAgents : Int
  disabledAgents : Int
  onlineAgents : Int
  offlineAgents : Int
  deriving DecidableEq

/-- The counters as declared (lines 59-65): all zero. -/
def AgentCounters.zero : AgentCounters := ⟨0, 0, 0, 0, 0, 0⟩

/-- One iteration of the loop of `getPoolAgentData` (lines 76-100). The type assertions
`agentValues.(map[string]interface{})` and `build["enabled"].(bool)` panic when they fail. -/
def agentStep (c : AgentCounters) (agentValues : Value) : Outcome AgentCounters :=
  match agentValues.asObject with
  | none => .panicked
  | some build =>
    let keyExists := hasKey "assignedRequest" build
    match (mapRead "enabled" build).asBool with
    | none => .panicked
    | some agentEnabled =>
      let agentStatus := mapRead "status" build
      .returned
        { totalAgents := c.totalAgents + 1
          activeAgents := if keyExists then c.activeAgents + 1 else c.activeAgents
          enabledAgents := if agentEnabled then c.enabledAgents + 1 else c.enabledAgents
          disabledAgents := if agentEnabled then c.disabledAgents else c.disabledAgents + 1
          onlineAgents :=
            if agentStatus.eqString "online" then c.onlineAgents + 1 else c.onlineAgents
          offlineAgents :=
            if agentStatus.eqString "online" then c.offlineAgents else c.offlineAgents + 1 }

/-- The loop `for _, agentValues := range agentData` (lines 75-101). -/
def agentLoop : AgentCounters → List Value → Outcome AgentCounters
  | c, [] => .returned c
  | c, agentValues :: rest =>
    match agentStep c agentValues with
    | .returned c' => agentLoop c' rest
    | .panicked => .panicked

/-- All the quantities `getPoolAgentData` prints. -/
structure AgentStats where
  totalAgents : Int
  activeAgents : Int
  idleAgents : Int
  enabledAgents : Int
  disabledAgents : Int
  onlineAgents : Int
  offlineAgents : Int
  agentUtilization : F64
  deriving DecidableEq

/-- The two assignments after the loop (lines 103-104). -/
def agentSummary (c : AgentCounters) : AgentStats :=
  { totalAgents := c.totalAgents
    activeAgents := c.activeAgents
    idleAgents := c.totalAgents - c.activeAgents
    enabledAgents := c.enabledAgents
    disabledAgents := c.disabledAgents
    onlineAgents := c.onlineAgents
    offlineAgents := c.offlineAgents
    agentUtilization :=
      F64.mul (F64.div (F64.ofInt c.activeAgents) (F64.ofInt c.enabledAgents)) (F64.ofInt 100) }

/-- The statistics of a decoded `value` array: the loop, then the summary. -/
def agentStats (agentData : List Value) : Outcome AgentStats :=
  match agentLoop AgentCounters.zero agentData with
  | .returned c => .returned (agentSummary c)
  | .panicked => .panicked

/-- The eight `fmt.Sprintf` lines (lines 106-113). -/
def Env.agentReport (env : Env) (s : AgentStats) : String :=
  "totalAgents: " ++ fmtInt s.totalAgents ++ "\n" ++
  "activeAgents: " ++ fmtInt s.activeAgents ++ "\n" ++
  "idleAgents: " ++ fmtInt s.idleAgents ++ "\n" ++
  "enabledAgents: " ++ fmtInt s.enabledAgents ++ "\n" ++
  "disabledAgents: " ++ fmtInt s.disabledAgents ++ "\n" ++
  "onlineAgents: " ++ fmtInt s.onlineAgents ++ "\n" ++
  "offlineAgents: " ++ fmtInt s.offlineAgents ++ "\n" ++
  "agentUtilization: " ++ env.fmtF64 s.agentUtilization ++ "\n"

/-- The URL built on line 55. -/
def Env.poolAgentURL (env : Env) (poolID : String) : String :=
  env.ADOUrl ++ "/_apis/distributedtask/pools/" ++ poolID ++
    "/agents?includeAssignedRequest=true"

/-- What `getPoolAgentData` does once it holds the response body (lines 58-114); `logFile`
is the content of the log so far and the result is its content afterwards. The type
assertion `data["value"].([]interface{})` panics when it fails. -/
def agentDataFrom (env : Env) (bodyBytes : List UInt8) (logFile : String) : Outcome String :=
  match env.jsonUnmarshal bodyBytes with
  | none => .returned logFile
  | some data =>
    match (mapRead "value" data).asArray with
    | none => .panicked
    | some agentData =>
      match agentStats agentData with
      | .returned s => .returned (logFile ++ env.agentReport s)
      | .panicked => .panicked

/-- The function `getPoolAgentData` (lines 54-115). -/
def getPoolAgentData (env : Env) (poolID : String) (logFile : String) : Outcome String :=
  match doRequest env (env.poolAgentURL poolID) with
  | .returned bodyBytes => agentDataFrom env bodyBytes logFile
  | .panicked => .panicked

/-! ## `getPoolBuildData` -/

/-- The variables of `getPoolBuildData` that the loop updates (lines 122-124). -/
structure BuildState where
  logFileOutput : String
  buildsInTheQueue : Int
  buildsRunning : Int
  deriving DecidableEq

/-- The variables as declared: the empty string and zeros. -/
def BuildState.init : BuildState := ⟨"", 0, 0⟩

/-- The detail line of a queued build (line 153). -/
def Env.queuedLine (env : Env) (poolID queueTime : String)
    (owner build : List (String × Value)) : String :=
  "Build: " ++ env.fmtS (mapRead "name" owner) ++ " - in the queue for " ++
    env.elapsed poolID queueTime ++ ". Full build data: " ++ env.fmtS (.object build) ++ "\n"

/-- The detail line of a running build (line 167). -/
def Env.runningLine (env : Env) (poolID assignedTime : String)
    (owner build : List (String × Value)) : String :=
  "Build: " ++ env.fmtS (mapRead "name" owner) ++ " - running for " ++
    env.elapsed poolID assignedTime ++ ". Full build data: " ++ env.fmtS (.object build) ++ "\n"

/-- The first conditional of the loop body (lines 143-154): a build without `assignTime`.
The assertions `build["queueTime"].(string)` and `build["owner"].(map[string]interface{})`
panic when they fail. -/
def queuedBranch (env : Env) (poolID : String) (st : BuildState)
    (build : List (String × Value)) : Outcome BuildState :=
  if hasKey "assignTime" build then .returned st
  else
    match (mapRead "queueTime" build).asString with
    | none => .panicked
    | some queueTime =>
      match (mapRead "owner" build).asObject with
      | none => .panicked
      | some owner =>
        .returned
          { logFileOutput := st.logFileOutput ++ env.queuedLine poolID queueTime owner build
            buildsInTheQueue := st.buildsInTheQueue + 1
            buildsRunning := st.buildsRunning }

/-- The second conditional of the loop body (lines 157-168): a build with `assignTime` and
without `result`. The assertions `build["assignTime"].(string)` and
`build["owner"].(map[string]interface{})` panic when they fail. -/
def runningBranch (env : Env) (poolID : String) (st : BuildState)
    (build : List (String × Value)) : Outcome BuildState :=
  if hasKey "assignTime" build && !hasKey "result" build then
    match (mapRead "assignTime" build).asString with
    | none => .panicked
    | some assignedTime =>
      match (mapRead "owner" build).asObject with
      | none => .panicked
      | some owner =>
        .returned
          { logFileOutput := st.logFileOutput ++ env.runningLine poolID assignedTime owner build
            buildsInTheQueue := st.buildsInTheQueue
            buildsRunning := st.buildsRunning + 1 }
  else .returned st

/-- One iteration of the loop of `getPoolBuildData` (lines 136-168). The assertion
`buildValues.(map[string]interface{})` panics when it fails. -/
def buildStep (env : Env) (poolID : String) (st : BuildState) (buildValues : Value) :
    Outcome BuildState :=
  match buildValues.asObject with
  | none => .panicked
  | some build =>
    match queuedBranch env poolID st build with
    | .returned st1 => runningBranch env poolID st1 build
    | .panicked => .panicked

/-- The loop `for _, buildValues := range buildData` (lines 135-169). -/
def buildLoop (env : Env) (poolID : String) : BuildState → List Value → Outcome BuildState
  | st, [] => .returned st
  | st, buildValues :: rest =>
    match buildStep env poolID st buildValues with
    | .returned st' => buildLoop env poolID st' rest
    | .panicked => .panicked

/-- The loop run from the declared variables. -/
def buildStats (env : Env) (poolID : String) (buildData : List Value) : Outcome BuildState :=
  buildLoop env poolID BuildState.init buildData

/-- The text handed to `logFile.WriteString` (lines 171-173): the detail lines, then the
summary line. -/
def buildReport (st : BuildState) : String :=
  st.logFileOutput ++ ("Builds in the queue: " ++ fmtInt st.buildsInTheQueue ++ "\n")

/-- The URL built on line 119. -/
def Env.poolBuildURL (env : Env) (poolID : String) : String :=
  env.ADOUrl ++ "/_apis/distributedtask/pools/" ++ poolID ++ "/jobrequests"

/-- What `getPoolBuildData` does once it holds the response body (lines 122-173). The type
assertion `data["value"].([]interface{})` panics when it fails. -/
def buildDataFrom (env : Env) (poolID : String) (bodyBytes : List UInt8) (logFile : String) :
    Outcome String :=
  match env.jsonUnmarshal bodyBytes with
  | none => .returned logFile
  | some data =>
    match (mapRead "value" data).asArray with
    | none => .panicked
    | some buildData =>
      match buildStats env poolID buildData with
      | .returned st => .returned (logFile ++ buildReport st)
      | .panicked => .panicked

/-- The function `getPoolBuildData` (lines 117-174). -/
def getPoolBuildData (env : Env) (poolID : String) (logFile : String) : Outcome String :=
  match doRequest env (env.poolBuildURL poolID) with
  | .returned bodyBytes => buildDataFrom env poolID bodyBytes logFile
  | .panicked => .panicked

/-! ## The pool loop of `main` -/

/-- The path of a pool's log file (lines 197 and 203). -/
def logPath (filename poolName : String) : String := "pools/" ++ poolName ++ "/" ++ filename

/-- The header line written on line 215. -/
def poolHeader (poolName : String) : String := "Pool: " ++ poolName ++ "\n"

/-- One iteration of the pool loop (lines 195-218): the content of the pool's log file
afterwards. A failing `os.Create` panics. -/
def processPool (env : Env) (filename poolID poolName : String) : Outcome String :=
  if env.createOk (logPath filename poolName) then
    match getPoolAgentData env poolID (poolHeader poolName) with
    | .returned logFile => getPoolBuildData env poolID logFile
    | .panicked => .panicked
  else .panicked

/-- The loop `for poolID, poolName := range pools` (lines 194-219), over the entries of
`pools` in the order the run visits them; `written` lists the log files completed so far,
each with its path and content. -/
def mainLoop (env : Env) (filename : String) :
    List (String × String) → List (String × String) → Outcome (List (String × String))
  | [], written => .returned written
  | (poolID, poolName) :: rest, written =>
    match processPool env filename poolID poolName with
    | .returned logFile =>
      mainLoop env filename rest (written ++ [(logPath filename poolName, logFile)])
    | .panicked => .panicked

/-! ## Vocabulary of the specification -/

/-- The value under key `k` of a record; `nil` when the record is not an object or lacks
the key. -/
def field (k : String) : Value → Value
  | .object fields => mapRead k fields
  | _ => .null

/-- The record is an object in which the key `k` is present, whatever its value. -/
def hasField (k : String) : Value → Bool
  | .object fields => hasKey k fields
  | _ => false

/-- An agent record of the expected shape: an object carrying a boolean `enabled`. -/
def wellFormedAgent (a : Value) : Bool :=
  a.asObject.isSome && (field "enabled" a).asBool.isSome

/-- The key `assignedRequest` is present in the record, whatever its value. -/
def hasAssignedRequest (a : Value) : Bool := hasField "assignedRequest" a

/-- The record's `enabled` is the boolean `true`. -/
def isEnabled (a : Value) : Bool := (field "enabled" a).asBool = some true

/-- The record's `status` is present and is the string `online`. -/
def isOnline (a : Value) : Bool := (field "status" a).asString = some "online"

/-- A job-request record of the expected shape: an object with a string `queueTime`, an
`owner` object whose `name` is a string and, when `assignTime` is present, a string
`assignTime`. -/
def wellFormedJob (j : Value) : Bool :=
  j.asObject.isSome && (field "queueTime" j).asString.isSome &&
    (field "owner" j).asObject.isSome && (field "name" (field "owner" j)).asString.isSome &&
    (!hasField "assignTime" j || (field "assignTime" j).asString.isSome)

/-- A queued build: the record lacks the key `assignTime`. -/
def isQueued (j : Value) : Bool := j.asObject.isSome && !hasField "assignTime" j

/-- A running build: the record has the key `assignTime` and lacks the key `result`. -/
def isRunning (j : Value) : Bool := hasField "assignTime" j && !hasField "result" j

/-- A completed build: the record has both keys, `assignTime` and `result`. -/
def isCompleted (j : Value) : Bool := hasField "assignTime" j && hasField "result" j

/-- The string under key `k` of a record (empty when there is none). -/
def stringField (k : String) (j : Value) : String := ((field k j).asString).getD ""

/-- The display name `owner.name` of a job-request record. -/
def ownerName (j : Value) : String := stringField "name" (field "owner" j)

/-- The detail line the specification gives for a record: for a queued build
`Build: <owner.name> - in the queue for <elapsed>. Full build data: <entire record>`, for a
running build the same with `running for` and the time since `assignTime`, and none for a
completed build. -/
def Env.detailLine (env : Env) (poolID : String) (j : Value) : Option String :=
  if isQueued j then
    some ("Build: " ++ ownerName j ++ " - in the queue for " ++
      env.elapsed poolID (stringField "queueTime" j) ++ ". Full build data: " ++
      env.fmtS j ++ "\n")
  else if isRunning j then
    some ("Build: " ++ ownerName j ++ " - running for " ++
      env.elapsed poolID (stringField "assignTime" j) ++ ". Full build data: " ++
      env.fmtS j ++ "\n")
  else none

/-- The texts of a list, one after the other. -/
def concatAll : List String → String
  | [] => ""
  | l :: ls => l ++ concatAll ls

/-- The number of line breaks in a text, which is its number of lines when it ends with
one. -/
def lineCount (s : String) : Nat := s.data.count '\n'

/-- The binary exponent of `n / d`, for `n, d > 0`: the `k` with
`2 ^ k ≤ n / d < 2 ^ (k + 1)`. -/
def binExp (n d : Nat) : Int :=
  if pow2Le ((bitLen n : Int) - (bitLen d : Int)) n d
  then (bitLen n : Int) - (bitLen d : Int) else (bitLen n : Int) - (bitLen d : Int) - 1

/-- The float `x` is finite and non-negative, with value `q`. -/
def F64.IsVal (x : F64) (q : ℚ) : Prop :=
  ∃ m e, x = .fin false m e ∧ ((m : ℕ) : ℚ) * (2 : ℚ) ^ e = q

/-- The number of records of a list that satisfy `p`, as an `Int`. -/
def countOf (p : Value → Bool) (l : List Value) : Int := ((l.countP p : Nat) : Int)

/-! ## Fixtures -/

/-- An agent record with the given `enabled` flag and `status`, and with an
`assignedRequest` (here `null`-valued, the value being irrelevant) when `assigned`. -/
def agentRecord (enabled : Bool) (status : String) (assigned : Bool) : Value :=
  .object ((if assigned then [("assignedRequest", Value.null)] else []) ++
    [("id", .number (F64.ofInt 7)), ("enabled", .bool enabled), ("status", .string status)])

/-- Ten agents, six of them enabled, four with an assigned request. -/
def tenAgents : List Value :=
  [ agentRecord true "online" true, agentRecord true "online" true,
    agentRecord true "online" true, agentRecord true "offline" false,
    agentRecord true "online" false, agentRecord true "online" false,
    agentRecord false "offline" true, agentRecord false "offline" false,
    agentRecord false "online" false, agentRecord false "offline" false ]

/-- One enabled, idle agent and two disabled agents that each hold an assigned request. -/
def busyDisabledAgents : List Value :=
  [ agentRecord true "online" false, agentRecord false "online" true,
    agentRecord false "offline" true ]

/-- Three agents: one with no `status` at all, one whose `status` is not a string. -/
def oddStatusAgents : List Value :=
  [ .object [("enabled", .bool true)],
    .object [("enabled", .bool false), ("status", .number (F64.ofInt 1))],
    agentRecord true "online" true ]

/-- The bytes of an ASCII text. -/
def bytesOf (s : String) : List UInt8 := s.data.map (fun c => UInt8.ofNat c.toNat)

/-- Lexicographic order on texts, character by character. -/
def charsLt : List Char → List Char → Bool
  | [], [] => false
  | [], _ :: _ => true
  | _ :: _, [] => false
  | a :: as, b :: bs =>
    if a.toNat < b.toNat then true else if b.toNat < a.toNat then false else charsLt as bs

/-- Insertion of an entry into entries ordered by key. -/
def insertByKey (p : String × String) : List (String × String) → List (String × String)
  | [] => [p]
  | q :: rest => if charsLt p.1.data q.1.data then p :: q :: rest else q :: insertByKey p rest

/-- Entries in the order of their keys, the order in which `fmt` prints a map. -/
def sortByKey : List (String × String) → List (String × String)
  | [] => []
  | p :: rest => insertByKey p (sortByKey rest)

/-- The stand-in `%v` of a finite `float64`: the integers below a million in plain
decimal form, which is all the fixtures print. -/
def mockFmtFloat : F64 → String
  | .fin false m e => if 0 ≤ e then toString (m * 2 ^ e.toNat) else toString (m / 2 ^ (-e).toNat)
  | _ => "0"

mutual
/-- The stand-in `%s` of a value below the top level: strings as they are, slices as
`[a b]`, maps as `map[k:v k:v]` in key order. -/
def dumpValue : Value → String
  | .null => "<nil>"
  | .bool b => "%!s(bool=" ++ (if b then "true" else "false") ++ ")"
  | .number f => "%!s(float64=" ++ mockFmtFloat f ++ ")"
  | .string s => s
  | .array elems => "[" ++ " ".intercalate (dumpElems elems) ++ "]"
  | .object fields =>
    "map[" ++ " ".intercalate ((sortByKey (dumpFields fields)).map
      (fun p => p.1 ++ ":" ++ p.2)) ++ "]"
/-- The elements of a slice, each printed. -/
def dumpElems : List Value → List String
  | [] => []
  | v :: vs => dumpValue v :: dumpElems vs
/-- The entries of a map, each key with its printed value. -/
def dumpFields : List (String × Value) → List (String × String)
  | [] => []
  | (k, v) :: fs => (k, dumpValue v) :: dumpFields fs
end

/-- The stand-in `%s` of a top-level value that is not a string. -/
def mockFmtOther : Value → String
  | .null => "%!s(<nil>)"
  | v => dumpValue v

/-- A queued build: no `assignTime`. -/
def queuedJob : Value :=
  .object [("requestId", .number (F64.ofInt 41)), ("queueTime", .string "2024-05-01T10:00:00Z"),
    ("owner", .object [("name", .string "nightly")])]

/-- A queued build that nevertheless carries a `result`. -/
def queuedJobWithResult : Value :=
  .object [("queueTime", .string "2024-05-01T10:05:00Z"), ("result", .string "canceled"),
    ("owner", .object [("name", .string "docs")])]

/-- A running build: `assignTime` and no `result`. -/
def runningJob : Value :=
  .object [("queueTime", .string "2024-05-01T09:00:00Z"),
    ("assignTime", .string "2024-05-01T09:01:00Z"), ("owner", .object [("name", .string "ci")])]

/-- A completed build: `assignTime` and `result`. -/
def completedJob : Value :=
  .object [("queueTime", .string "2024-05-01T08:00:00Z"),
    ("assignTime", .string "2024-05-01T08:01:00Z"), ("result", .string "succeeded"),
    ("owner", .object [("name", .string "release")])]

/-- One job request of each kind. -/
def sampleJobs : List Value := [queuedJob, runningJob, completedJob, queuedJobWithResult]

/-- A queued build whose owner name spans two lines. -/
def twoLineNameJob : Value :=
  .object [("queueTime", .string "2024-05-01T10:00:00Z"),
    ("owner", .object [("name", .string "nightly\nbuild")])]

/-- The body of an agents response with an empty `value` array. -/
def emptyValueBody : List UInt8 := bytesOf "\x7b\"value\":[]\x7d"

/-- The body of a response that is an object without `value`. -/
def emptyObjectBody : List UInt8 := bytesOf "\x7b\x7d"

/-- The body of a response holding one enabled, online, idle agent. -/
def oneAgentBody : List UInt8 := bytesOf "\x7b\"value\":[\x7b\"enabled\":true,\"status\":\"online\"\x7d]\x7d"

/-- The body of a job-requests response holding `queuedJob` only. -/
def oneJobBody : List UInt8 :=
  bytesOf ("\x7b\"value\":[\x7b\"requestId\":41,\"queueTime\":\"2024-05-01T10:00:00Z\"," ++
    "\"owner\":\x7b\"name\":\"nightly\"\x7d\x7d]\x7d")

/-- The body of a job-requests response holding the four builds of `sampleJobs`. -/
def fourJobsBody : List UInt8 :=
  bytesOf ("\x7b\"value\":[\x7b\"requestId\":41,\"queueTime\":\"2024-05-01T10:00:00Z\"," ++
    "\"owner\":\x7b\"name\":\"nightly\"\x7d\x7d," ++
    "\x7b\"queueTime\":\"2024-05-01T09:00:00Z\",\"assignTime\":\"2024-05-01T09:01:00Z\"," ++
    "\"owner\":\x7b\"name\":\"ci\"\x7d\x7d," ++
    "\x7b\"queueTime\":\"2024-05-01T08:00:00Z\",\"assignTime\":\"2024-05-01T08:01:00Z\"," ++
    "\"result\":\"succeeded\",\"owner\":\x7b\"name\":\"release\"\x7d\x7d," ++
    "\x7b\"queueTime\":\"2024-05-01T10:05:00Z\",\"result\":\"canceled\"," ++
    "\"owner\":\x7b\"name\":\"docs\"\x7d\x7d]\x7d")

/-- The body of a job-requests response holding `twoLineNameJob` only; the line break of
the owner name is the JSON escape `\n`. -/
def twoLineNameBody : List UInt8 :=
  bytesOf ("\x7b\"value\":[\x7b\"queueTime\":\"2024-05-01T10:00:00Z\"," ++
    "\"owner\":\x7b\"name\":\"nightly\\nbuild\"\x7d\x7d]\x7d")

/-- The stand-in decoder: the bodies of the fixtures, decoded as `encoding/json` decodes
them; it reports an error on every other input. -/
def mockUnmarshal (body : List UInt8) : Option (List (String × Value)) :=
  if body = emptyValueBody then some [("value", .array [])]
  else if body = emptyObjectBody then some []
  else if body = bytesOf "null" then some []
  else if body = oneAgentBody then
    some [("value", .array [.object [("enabled", .bool true), ("status", .string "online")]])]
  else if body = oneJobBody then some [("value", .array [queuedJob])]
  else if body = fourJobsBody then some [("value", .array sampleJobs)]
  else if body = twoLineNameBody then some [("value", .array [twoLineNameJob])]
  else none

/-- The stand-in server. Pool `p1` has one agent and one queued build; pool `p2` answers
both requests with the object `{}`; pool `p3` answers both with an HTML page; pool `p4`
answers the agents request with an HTML page and the job requests with four builds; pool
`p5` has no agent and one queued build whose owner name spans two lines; for every other
pool the connection fails. -/
def mockServer (url : String) : Option (List UInt8) :=
  if url = "https://ado.example/_apis/distributedtask/pools/p1/agents?includeAssignedRequest=true"
  then some oneAgentBody
  else if url = "https://ado.example/_apis/distributedtask/pools/p1/jobrequests"
  then some oneJobBody
  else if url = "https://ado.example/_apis/distributedtask/pools/p2/agents?includeAssignedRequest=true"
  then some emptyObjectBody
  else if url = "https://ado.example/_apis/distributedtask/pools/p2/jobrequests"
  then some emptyObjectBody
  else if url = "https://ado.example/_apis/distributedtask/pools/p3/agents?includeAssignedRequest=true"
  then some (bytesOf "<html></html>")
  else if url = "https://ado.example/_apis/distributedtask/pools/p3/jobrequests"
  then some (bytesOf "<html></html>")
  else if url = "https://ado.example/_apis/distributedtask/pools/p4/agents?includeAssignedRequest=true"
  then some (bytesOf "<html></html>")
  else if url = "https://ado.example/_apis/distributedtask/pools/p4/jobrequests"
  then some fourJobsBody
  else if url = "https://ado.example/_apis/distributedtask/pools/p5/agents?includeAssignedRequest=true"
  then some emptyValueBody
  else if url = "https://ado.example/_apis/distributedtask/pools/p5/jobrequests"
  then some twoLineNameBody
  else none

/-- A stand-in environment for the examples. -/
def mockEnv : Env where
  ADOToken := "token"
  ADOUrl := "https://ado.example"
  urlParses := fun url => !(beforeFragment url).any isCTL
  roundTrip := fun request => mockServer request.url
  jsonUnmarshal := mockUnmarshal
  elapsed := fun _ _ => "1h0m0s"
  fmtFloat := mockFmtFloat
  fmtOther := mockFmtOther
  createOk := fun _ => true
  urlParses_ctl := by intro url h; simp [h]
  jsonUnmarshal_empty := rfl

/-! ## Counting lemmas -/

theorem countOf_nil (p : Value → Bool) : countOf p [] = 0 := rfl

theorem countOf_cons (p : Value → Bool) (a : Value) (l : List Value) :
    countOf p (a :: l) = countOf p l + (if p a then 1 else 0) := by
  unfold countOf
  rw [List.countP_cons]
  split <;> simp

theorem countOf_nonneg (p : Value → Bool) (l : List Value) : 0 ≤ countOf p l := by
  unfold countOf; exact Int.natCast_nonneg _

theorem countOf_le_length (p : Value → Bool) (l : List Value) : countOf p l ≤ (l.length : Int) := by
  unfold countOf; exact_mod_cast List.countP_le_length p

theorem countOf_add_not (p : Value → Bool) (l : List Value) :
    countOf p l + countOf (fun a => !p a) l = (l.length : Int) := by
  induction l with
  | nil => simp [countOf]
  | cons a l ih =>
    rw [countOf_cons, countOf_cons, List.length_cons]
    cases p a <;> simp <;> omega

theorem eqString_iff (v : Value) (s : String) :
    v.eqString s = true ↔ v.asString = some s := by
  cases v <;> simp [Value.eqString, Value.asString]

/-- What one iteration does to the counters of an agent record of the expected shape. -/
theorem agentStep_wellFormed (c : AgentCounters) (a : Value) (h : wellFormedAgent a = true) :
    agentStep c a = .returned
      { totalAgents := c.totalAgents + 1
        activeAgents := c.activeAgents + (if hasAssignedRequest a then 1 else 0)
        enabledAgents := c.enabledAgents + (if isEnabled a then 1 else 0)
        disabledAgents := c.disabledAgents + (if isEnabled a then 0 else 1)
        onlineAgents := c.onlineAgents + (if isOnline a then 1 else 0)
        offlineAgents := c.offlineAgents + (if isOnline a then 0 else 1) } := by
  cases a with
  | object build =>
    simp only [wellFormedAgent, field, Value.asObject, Option.isSome_some, Bool.true_and] at h
    cases hen : (mapRead "enabled" build).asBool with
    | none => simp [hen] at h
    | some b =>
      simp only [agentStep, Value.asObject, hen, hasAssignedRequest, hasField, isEnabled, isOnline,
        field, decide_eq_true_eq, ← eqString_iff]
      cases b <;> split_ifs <;> simp_all
  | _ => simp [wellFormedAgent, Value.asObject] at h

theorem agentStep_returned (c c' : AgentCounters) (a : Value)
    (h : agentStep c a = .returned c') : wellFormedAgent a = true := by
  cases a with
  | object build =>
    simp only [agentStep, Value.asObject] at h
    simp only [wellFormedAgent, field, Value.asObject, Option.isSome_some, Bool.true_and]
    cases hen : (mapRead "enabled" build).asBool with
    | none => simp [hen] at h
    | some v => simp
  | _ => simp [agentStep, Value.asObject] at h

theorem agentLoop_wellFormed (agents : List Value) :
    ∀ c : AgentCounters, (∀ a ∈ agents, wellFormedAgent a = true) →
      agentLoop c agents = .returned
        { totalAgents := c.totalAgents + (agents.length : Int)
          activeAgents := c.activeAgents + countOf hasAssignedRequest agents
          enabledAgents := c.enabledAgents + countOf isEnabled agents
          disabledAgents := c.disabledAgents + countOf (fun a => !isEnabled a) agents
          onlineAgents := c.onlineAgents + countOf isOnline agents
          offlineAgents := c.offlineAgents + countOf (fun a => !isOnline a) agents } := by
  induction agents with
  | nil => intro c _; simp [agentLoop, countOf]
  | cons a rest ih =>
    intro c h
    have ha : wellFormedAgent a = true := h a (List.mem_cons_self _ _)
    have hrest : ∀ b ∈ rest, wellFormedAgent b = true :=
      fun b hb => h b (List.mem_cons_of_mem _ hb)
    simp only [agentLoop, agentStep_wellFormed c a ha]
    rw [ih _ hrest]
    simp only [countOf_cons, List.length_cons, Nat.cast_add, Nat.cast_one]
    congr 2
    all_goals first
      | omega
      | (split_ifs <;> first | omega | simp_all)

theorem agentLoop_returned (agents : List Value) :
    ∀ c c' : AgentCounters, agentLoop c agents = .returned c' →
      ∀ a ∈ agents, wellFormedAgent a = true := by
  induction agents with
  | nil => intro c c' _ a ha; simp at ha
  | cons b rest ih =>
    intro c c' h a ha
    simp only [agentLoop] at h
    cases hstep : agentStep c b with
    | panicked => simp [hstep] at h
    | returned c1 =>
      simp only [hstep] at h
      rcases List.mem_cons.mp ha with rfl | hmem
      · exact agentStep_returned c c1 _ hstep
      · exact ih c1 c' h a hmem

/-- The statistics of a list of agent records of the expected shape, in closed form. -/
theorem agentStats_wellFormed (agents : List Value)
    (h : ∀ a ∈ agents, wellFormedAgent a = true) :
    agentStats agents = .returned (agentSummary
      { totalAgents := (agents.length : Int)
        activeAgents := countOf hasAssignedRequest agents
        enabledAgents := countOf isEnabled agents
        disabledAgents := countOf (fun a => !isEnabled a) agents
        onlineAgents := countOf isOnline agents
        offlineAgents := countOf (fun a => !isOnline a) agents }) := by
  unfold agentStats
  rw [agentLoop_wellFormed agents AgentCounters.zero h]
  simp [AgentCounters.zero]

theorem agentStats_returned (agents : List Value) (s : AgentStats)
    (h : agentStats agents = .returned s) : ∀ a ∈ agents, wellFormedAgent a = true := by
  unfold agentStats at h
  cases hl : agentLoop AgentCounters.zero agents with
  | panicked => simp [hl] at h
  | returned c => exact agentLoop_returned agents _ c hl

/-! ## Claims about the agent counters -/

/-- C1: whenever the loop of `getPoolAgentData` runs to completion over the agent records,
the counters satisfy `idleAgents + activeAgents = totalAgents`, that is
`idleAgents = totalAgents - activeAgents`, hence `0 ≤ activeAgents ≤ totalAgents` and
`0 ≤ idleAgents`. -/
theorem idle_add_active_eq_total (agents : List Value) (s : AgentStats)
    (h : agentStats agents = .returned s) :
    s.idleAgents + s.activeAgents = s.totalAgents ∧
      s.idleAgents = s.totalAgents - s.activeAgents ∧
      0 ≤ s.activeAgents ∧ s.activeAgents ≤ s.totalAgents ∧ 0 ≤ s.idleAgents := by
  have hwf := agentStats_returned agents s h
  rw [agentStats_wellFormed agents hwf] at h
  have hs : s = _ := (Outcome.returned.inj h).symm
  subst hs
  have h0 := countOf_nonneg hasAssignedRequest agents
  have h1 := countOf_le_length hasAssignedRequest agents
  refine ⟨?_, rfl, ?_, ?_, ?_⟩ <;> simp only [agentSummary] <;> omega

/-- Witness of C1: the loop completes on the ten-agent fixture. -/
theorem idle_add_active_eq_total_witness :
    ∃ s, agentStats tenAgents = .returned s ∧ s.totalAgents = 10 ∧
      s.idleAgents + s.activeAgents = s.totalAgents ∧ 0 ≤ s.idleAgents := by
  refine ⟨agentSummary ⟨10, 4, 6, 4, 6, 4⟩, by decide, rfl, ?_⟩
  have h := idle_add_active_eq_total tenAgents (agentSummary ⟨10, 4, 6, 4, 6, 4⟩) (by decide)
  exact ⟨h.1, h.2.2.2.2⟩

/-- C2: on a `value` array whose elements are objects each carrying a boolean `enabled`,
the loop completes and counts every agent once as enabled or disabled and once as online
or offline: `enabledAgents + disabledAgents = totalAgents` and
`onlineAgents + offlineAgents = totalAgents`; the online agents are exactly those whose
`status` is the string `online`, every other agent (no `status`, or another value) being
counted offline. -/
theorem enabled_disabled_online_offline_partition (agents : List Value)
    (h : ∀ a ∈ agents, wellFormedAgent a = true) :
    ∃ s, agentStats agents = .returned s ∧
      s.totalAgents = (agents.length : Int) ∧
      s.enabledAgents + s.disabledAgents = s.totalAgents ∧
      s.onlineAgents + s.offlineAgents = s.totalAgents ∧
      s.enabledAgents = countOf isEnabled agents ∧
      s.disabledAgents = countOf (fun a => !isEnabled a) agents ∧
      s.onlineAgents = countOf isOnline agents ∧
      s.offlineAgents = countOf (fun a => !isOnline a) agents := by
  refine ⟨_, agentStats_wellFormed agents h, rfl, ?_, ?_, rfl, rfl, rfl, rfl⟩
  · exact countOf_add_not isEnabled agents
  · exact countOf_add_not isOnline agents

/-- Witness of C2: agents without a `status`, or with a `status` that is not a string,
are of the expected shape and are counted offline. -/
theorem enabled_disabled_online_offline_partition_witness :
    (∀ a ∈ oddStatusAgents, wellFormedAgent a = true) ∧
      ∃ s, agentStats oddStatusAgents = .returned s ∧ s.totalAgents = 3 ∧
        s.onlineAgents = 1 ∧ s.offlineAgents = 2 := by
  have hwf : ∀ a ∈ oddStatusAgents, wellFormedAgent a = true := by decide
  obtain ⟨s, hs, ht, _, _, _, _, hon, hoff⟩ :=
    enabled_disabled_online_offline_partition oddStatusAgents hwf
  refine ⟨hwf, s, hs, ?_, ?_, ?_⟩
  · rw [ht]; rfl
  · rw [hon]; decide
  · rw [hoff]; decide

/-! ## The build loop in closed form -/

theorem buildStep_wellFormed (env : Env) (poolID : String) (st : BuildState) (j : Value)
    (h : wellFormedJob j = true) :
    buildStep env poolID st j = .returned
      { logFileOutput := st.logFileOutput ++ (env.detailLine poolID j).getD ""
        buildsInTheQueue := st.buildsInTheQueue + (if isQueued j then 1 else 0)
        buildsRunning := st.buildsRunning + (if isRunning j then 1 else 0) } := by
  cases j with
  | object build =>
    simp only [wellFormedJob, field, hasField, Value.asObject, Option.isSome_some, Bool.true_and,
      Bool.and_eq_true, Bool.or_eq_true, Bool.not_eq_true'] at h
    obtain ⟨⟨⟨hq, ho⟩, hn⟩, ha⟩ := h
    obtain ⟨queueTime, hq⟩ := Option.isSome_iff_exists.mp hq
    obtain ⟨owner, ho⟩ := Option.isSome_iff_exists.mp ho
    have hov : mapRead "owner" build = .object owner := by
      cases hv : mapRead "owner" build <;> simp_all [Value.asObject]
    simp only [hov, field] at hn
    obtain ⟨name, hn⟩ := Option.isSome_iff_exists.mp hn
    have hname : Env.fmtS env (mapRead "name" owner) = name := by
      cases hv : mapRead "name" owner <;> simp_all [Value.asString, Env.fmtS]
    by_cases hassign : hasKey "assignTime" build = true
    · have hat : ∃ t, (mapRead "assignTime" build).asString = some t := by
        rcases ha with ha | ha
        · simp [hassign] at ha
        · exact Option.isSome_iff_exists.mp ha
      obtain ⟨assignedTime, hat⟩ := hat
      by_cases hres : hasKey "result" build = true
      · simp [buildStep, Value.asObject, queuedBranch, runningBranch, hassign, hres,
          Env.detailLine, isQueued, isRunning, hasField]
      · simp [buildStep, Value.asObject, queuedBranch, runningBranch, hassign, hres, hat, ho,
          Env.detailLine, isQueued, isRunning, hasField, Env.runningLine, hname, ownerName,
          stringField, field, hov, hn]
    · simp [buildStep, Value.asObject, queuedBranch, runningBranch, hassign, hq, ho,
        Env.detailLine, isQueued, isRunning, hasField, Env.queuedLine, hname, ownerName,
        stringField, field, hov, hn]
  | _ => simp [wellFormedJob, Value.asObject] at h

theorem buildLoop_wellFormed (env : Env) (poolID : String) (jobs : List Value) :
    ∀ st : BuildState, (∀ j ∈ jobs, wellFormedJob j = true) →
      buildLoop env poolID st jobs = .returned
        { logFileOutput := st.logFileOutput ++ concatAll (jobs.filterMap (env.detailLine poolID))
          buildsInTheQueue := st.buildsInTheQueue + countOf isQueued jobs
          buildsRunning := st.buildsRunning + countOf isRunning jobs } := by
  induction jobs with
  | nil => intro st _; simp [buildLoop, countOf, concatAll]
  | cons j rest ih =>
    intro st h
    have hj : wellFormedJob j = true := h j (List.mem_cons_self _ _)
    have hrest : ∀ b ∈ rest, wellFormedJob b = true :=
      fun b hb => h b (List.mem_cons_of_mem _ hb)
    simp only [buildLoop, buildStep_wellFormed env poolID st j hj]
    rw [ih _ hrest]
    simp only [countOf_cons, List.filterMap_cons]
    congr 2
    · cases hd : env.detailLine poolID j <;> simp [concatAll, String.append_assoc]
    · omega
    · omega

/-! ## Line counting -/

theorem lineCount_empty : lineCount "" = 0 := rfl

theorem lineCount_append (a b : String) : lineCount (a ++ b) = lineCount a + lineCount b := by
  simp [lineCount, String.data_append, List.count_append]

theorem lineCount_concatAll (ls : List String) (h : ∀ l ∈ ls, lineCount l = 1) :
    lineCount (concatAll ls) = ls.length := by
  induction ls with
  | nil => rfl
  | cons l rest ih =>
    rw [concatAll, lineCount_append, h l (List.mem_cons_self _ _),
      ih (fun x hx => h x (List.mem_cons_of_mem _ hx)), List.length_cons]
    omega

theorem digitChar_ne_newline : ∀ n, n < 10 → Nat.digitChar n ≠ '\n' := by
  decide

theorem toDigitsCore_no_newline (fuel : Nat) :
    ∀ (n : Nat) (acc : List Char), (∀ c ∈ acc, c ≠ '\n') →
      ∀ c ∈ Nat.toDigitsCore 10 fuel n acc, c ≠ '\n' := by
  induction fuel with
  | zero => intro n acc hacc c hc; simp [Nat.toDigitsCore] at hc; exact hacc c hc
  | succ fuel ih =>
    intro n acc hacc c hc
    simp only [Nat.toDigitsCore] at hc
    have hcons : ∀ x ∈ Nat.digitChar (n % 10) :: acc, x ≠ '\n' := by
      intro x hx
      rcases List.mem_cons.mp hx with rfl | hx
      · exact digitChar_ne_newline _ (Nat.mod_lt _ (by decide))
      · exact hacc x hx
    split at hc
    · exact hcons c hc
    · exact ih _ _ hcons c hc

theorem lineCount_natRepr (n : Nat) : lineCount (Nat.repr n) = 0 := by
  unfold lineCount
  rw [List.count_eq_zero]
  intro hmem
  exact toDigitsCore_no_newline _ n [] (by simp) '\n' (by simpa [Nat.repr, Nat.toDigits] using hmem) rfl

theorem lineCount_fmtInt (i : Int) : lineCount (fmtInt i) = 0 := by
  cases i with
  | ofNat n => exact lineCount_natRepr n
  | negSucc n =>
    show lineCount ("-" ++ Nat.repr (n + 1)) = 0
    rw [lineCount_append, lineCount_natRepr]
    rfl

/-! ## Claims about the build collector -/

theorem countOf_queued_running_completed (jobs : List Value)
    (h : ∀ j ∈ jobs, wellFormedJob j = true) :
    countOf isQueued jobs + countOf isRunning jobs + countOf isCompleted jobs =
      (jobs.length : Int) := by
  induction jobs with
  | nil => simp [countOf]
  | cons j rest ih =>
    have hj : wellFormedJob j = true := h j (List.mem_cons_self _ _)
    have hobj : j.asObject.isSome = true := by
      simp only [wellFormedJob, Bool.and_eq_true] at hj
      exact hj.1.1.1.1
    have ih' := ih (fun b hb => h b (List.mem_cons_of_mem _ hb))
    simp only [countOf_cons, List.length_cons, Nat.cast_add, Nat.cast_one, isQueued, isRunning,
      isCompleted, hobj, Bool.true_and]
    by_cases ha : hasField "assignTime" j = true <;>
      by_cases hr : hasField "result" j = true <;> simp [ha, hr] <;> omega

/-- C4: on a response whose `value` array holds job-request records of the expected
shape, `getPoolBuildData` runs its loop to completion and classifies every record by key
presence only: `buildsInTheQueue` is the number of records without `assignTime` (with or
without `result`), `buildsRunning` the number of records with `assignTime` and without
`result`, a record with both keys changes neither counter, and no record changes both.
The queue count is the one `getPoolBuildData` writes on its summary line. -/
theorem builds_classified_by_key_presence (env : Env) (poolID : String) (body : List UInt8)
    (data : List (String × Value)) (jobs : List Value) (logFile : String)
    (hreq : doRequest env (env.poolBuildURL poolID) = .returned body)
    (hdec : env.jsonUnmarshal body = some data)
    (hval : (mapRead "value" data).asArray = some jobs)
    (h : ∀ j ∈ jobs, wellFormedJob j = true) :
    (∃ st, buildStats env poolID jobs = .returned st ∧
      getPoolBuildData env poolID logFile = .returned (logFile ++ buildReport st) ∧
      buildReport st = st.logFileOutput ++ ("Builds in the queue: " ++
        fmtInt (countOf (fun j => !hasField "assignTime" j) jobs) ++ "\n") ∧
      st.buildsInTheQueue = countOf (fun j => !hasField "assignTime" j) jobs ∧
      st.buildsRunning =
        countOf (fun j => hasField "assignTime" j && !hasField "result" j) jobs ∧
      st.buildsInTheQueue + st.buildsRunning +
        countOf (fun j => hasField "assignTime" j && hasField "result" j) jobs =
          (jobs.length : Int)) ∧
    ∀ j ∈ jobs, ∀ st : BuildState, ∃ st', buildStep env poolID st j = .returned st' ∧
      (hasField "assignTime" j = false →
        st'.buildsInTheQueue = st.buildsInTheQueue + 1 ∧ st'.buildsRunning = st.buildsRunning) ∧
      (hasField "assignTime" j = true → hasField "result" j = false →
        st'.buildsInTheQueue = st.buildsInTheQueue ∧ st'.buildsRunning = st.buildsRunning + 1) ∧
      (hasField "assignTime" j = true → hasField "result" j = true →
        st'.buildsInTheQueue = st.buildsInTheQueue ∧ st'.buildsRunning = st.buildsRunning) := by
  have hq : countOf (fun j => !hasField "assignTime" j) jobs = countOf isQueued jobs := by
    unfold countOf
    congr 1
    apply List.countP_congr
    intro j hj
    have hj' := h j hj
    simp only [wellFormedJob, Bool.and_eq_true] at hj'
    simp [isQueued, hj'.1.1.1.1]
  have hloop := buildLoop_wellFormed env poolID jobs BuildState.init h
  constructor
  · refine ⟨_, hloop, ?_, ?_, ?_, ?_, ?_⟩
    · simp only [getPoolBuildData, hreq, buildDataFrom, hdec, hval, buildStats, hloop]
    · simp [buildReport, BuildState.init, hq]
    · simp [BuildState.init, hq]
    · simp only [BuildState.init, zero_add]
      rfl
    · have := countOf_queued_running_completed jobs h
      simp only [BuildState.init, zero_add]
      exact this
  · intro j hj st
    have hj' := h j hj
    have hobj : j.asObject.isSome = true := by
      simp only [wellFormedJob, Bool.and_eq_true] at hj'
      exact hj'.1.1.1.1
    refine ⟨_, buildStep_wellFormed env poolID st j hj', ?_, ?_, ?_⟩
    · intro ha; simp [isQueued, isRunning, hobj, ha]
    · intro ha hr; simp [isQueued, isRunning, hobj, ha, hr]
    · intro ha hr; simp [isQueued, isRunning, hobj, ha, hr]

/-- Witness of C4: pool `p4` of the stand-in server answers with one record of each kind,
among them a queued one that carries a `result`. -/
theorem builds_classified_by_key_presence_witness :
    (∀ j ∈ sampleJobs, wellFormedJob j = true) ∧
      ∃ st, getPoolBuildData mockEnv "p4" "Pool: PoolD\n" =
          .returned ("Pool: PoolD\n" ++ buildReport st) ∧
        st.buildsInTheQueue = 2 ∧ st.buildsRunning = 1 := by
  have hwf : ∀ j ∈ sampleJobs, wellFormedJob j = true := by decide
  obtain ⟨⟨st, _, hget, _, hq, hr, _⟩, _⟩ :=
    builds_classified_by_key_presence mockEnv "p4" fourJobsBody
      [("value", .array sampleJobs)] sampleJobs "Pool: PoolD\n" (by decide) rfl rfl hwf
  refine ⟨hwf, st, hget, ?_, ?_⟩
  · rw [hq]; decide
  · rw [hr]; decide

theorem detailLine_lineCount (env : Env) (poolID : String) (j : Value) (l : String)
    (hname : lineCount (ownerName j) = 0) (hdump : lineCount (env.fmtS j) = 0)
    (helapsed : ∀ stamp, lineCount (env.elapsed poolID stamp) = 0)
    (hl : env.detailLine poolID j = some l) : lineCount l = 1 := by
  unfold Env.detailLine at hl
  have hlit1 : lineCount "Build: " = 0 := by decide
  have hlit2 : lineCount " - in the queue for " = 0 := by decide
  have hlit3 : lineCount " - running for " = 0 := by decide
  have hlit4 : lineCount ". Full build data: " = 0 := by decide
  have hlit5 : lineCount "\n" = 1 := by decide
  split at hl
  · cases hl
    simp only [lineCount_append, hname, hdump, helapsed, hlit1, hlit2, hlit4, hlit5]
  · split at hl
    · cases hl
      simp only [lineCount_append, hname, hdump, helapsed, hlit1, hlit3, hlit4, hlit5]
    · cases hl

theorem detailLine_isSome (env : Env) (poolID : String) (j : Value) :
    ((env.detailLine poolID j).isSome = true ↔ (isQueued j = true ∨ isRunning j = true)) ∧
      ¬ (isQueued j = true ∧ isRunning j = true) := by
  constructor
  · unfold Env.detailLine
    by_cases hq : isQueued j = true <;> by_cases hr : isRunning j = true <;> simp [hq, hr]
  · intro ⟨hq, hr⟩
    simp only [isQueued, isRunning, Bool.and_eq_true, Bool.not_eq_true'] at hq hr
    rw [hq.2] at hr
    exact Bool.false_ne_true hr.1

theorem detailLines_length (env : Env) (poolID : String) (jobs : List Value) :
    (((jobs.filterMap (env.detailLine poolID)).length : Nat) : Int) =
      countOf isQueued jobs + countOf isRunning jobs := by
  induction jobs with
  | nil => simp [countOf]
  | cons j rest ih =>
    rw [countOf_cons, countOf_cons, List.filterMap_cons]
    obtain ⟨hiff, hex⟩ := detailLine_isSome env poolID j
    cases hd : env.detailLine poolID j with
    | none =>
      have hnot : ¬ (isQueued j = true ∨ isRunning j = true) := by
        intro hor
        have := hiff.mpr hor
        simp [hd] at this
      have hq : isQueued j = false := by
        cases hv : isQueued j
        · rfl
        · exact absurd (Or.inl hv) hnot
      have hr : isRunning j = false := by
        cases hv : isRunning j
        · rfl
        · exact absurd (Or.inr hv) hnot
      simp only [hq, hr, Bool.false_eq_true, if_false]
      omega
    | some l =>
      have hor : isQueued j = true ∨ isRunning j = true := hiff.mp (by simp [hd])
      simp only [List.length_cons, Nat.cast_add, Nat.cast_one]
      rcases hor with hq | hr
      · have hr : isRunning j = false := by
          cases hv : isRunning j
          · rfl
          · exact absurd ⟨hq, hv⟩ hex
        simp only [hq, hr, Bool.false_eq_true, if_true, if_false]
        omega
      · have hq : isQueued j = false := by
          cases hv : isQueued j
          · rfl
          · exact absurd ⟨hv, hr⟩ hex
        simp only [hq, hr, Bool.false_eq_true, if_true, if_false]
        omega

/-- C5, as amended: on a response whose `value` array holds job-request records of the
expected shape, the text `getPoolBuildData` appends to the log is, in input order, one
detail entry per queued record (`Build: <owner.name> - in the queue for ...`, ended by a
line break), one per running record (`Build: <owner.name> - running for ...`), none for a
record with both `assignTime` and `result`, followed by the final line `Builds in the
queue: <buildsInTheQueue>`. There are `buildsInTheQueue + buildsRunning` detail entries;
the text has `buildsInTheQueue + buildsRunning + 1` lines when no owner name, elapsed time
or printed record holds a line break; and the text does not depend on `buildsRunning`. -/
theorem build_log_entries (env : Env) (poolID : String) (body : List UInt8)
    (data : List (String × Value)) (jobs : List Value) (logFile : String)
    (hreq : doRequest env (env.poolBuildURL poolID) = .returned body)
    (hdec : env.jsonUnmarshal body = some data)
    (hval : (mapRead "value" data).asArray = some jobs)
    (h : ∀ j ∈ jobs, wellFormedJob j = true) :
    ∃ st text, buildStats env poolID jobs = .returned st ∧
      getPoolBuildData env poolID logFile = .returned (logFile ++ text) ∧
      text = buildReport st ∧
      st.buildsInTheQueue = countOf (fun j => !hasField "assignTime" j) jobs ∧
      st.buildsRunning =
        countOf (fun j => hasField "assignTime" j && !hasField "result" j) jobs ∧
      text = concatAll (jobs.filterMap (env.detailLine poolID)) ++
        ("Builds in the queue: " ++ fmtInt st.buildsInTheQueue ++ "\n") ∧
      (((jobs.filterMap (env.detailLine poolID)).length : Nat) : Int) =
        st.buildsInTheQueue + st.buildsRunning ∧
      (∀ j ∈ jobs, hasField "assignTime" j = true → hasField "result" j = true →
        env.detailLine poolID j = none) ∧
      ((∀ j ∈ jobs, lineCount (ownerName j) = 0 ∧ lineCount (env.fmtS j) = 0) →
        (∀ stamp, lineCount (env.elapsed poolID stamp) = 0) →
        ((lineCount text : Nat) : Int) = st.buildsInTheQueue + st.buildsRunning + 1) ∧
      (∀ st' : BuildState, st'.logFileOutput = st.logFileOutput →
        st'.buildsInTheQueue = st.buildsInTheQueue → buildReport st' = text) := by
  have hq : countOf (fun j => !hasField "assignTime" j) jobs = countOf isQueued jobs := by
    unfold countOf
    congr 1
    apply List.countP_congr
    intro j hj
    have hj' := h j hj
    simp only [wellFormedJob, Bool.and_eq_true] at hj'
    simp [isQueued, hj'.1.1.1.1]
  have hloop := buildLoop_wellFormed env poolID jobs BuildState.init h
  have hlen := detailLines_length env poolID jobs
  refine ⟨_, _, hloop, ?_, rfl, ?_, ?_, ?_, ?_, ?_, ?_, ?_⟩
  · simp only [getPoolBuildData, hreq, buildDataFrom, hdec, hval, buildStats, hloop]
  · simp [BuildState.init, hq]
  · simp only [BuildState.init, zero_add]
    rfl
  · simp [buildReport, BuildState.init]
  · simp only [BuildState.init, zero_add]
    exact hlen
  · intro j _ ha hr
    simp [Env.detailLine, isQueued, isRunning, ha, hr]
  · intro hrec helapsed
    have hlines : ∀ l ∈ jobs.filterMap (env.detailLine poolID), lineCount l = 1 := by
      intro l hl
      obtain ⟨j, hj, hjl⟩ := List.mem_filterMap.mp hl
      exact detailLine_lineCount env poolID j l (hrec j hj).1 (hrec j hj).2 helapsed hjl
    have hsum : lineCount "Builds in the queue: " = 0 := by decide
    have hnl : lineCount "\n" = 1 := by decide
    simp only [buildReport, BuildState.init, lineCount_append, lineCount_concatAll _ hlines,
      lineCount_fmtInt, hsum, hnl, zero_add, String.empty_append, lineCount_empty]
    omega
  · intro st' hlog hq'
    simp [buildReport, hlog, hq']

/-- Witness of C5 as amended: pool `p4` of the stand-in server answers with a queued, a
running and a completed build and a queued build that carries a `result`, in that order;
the appended text holds the three detail entries in input order, then the summary line. -/
theorem build_log_entries_witness :
    getPoolBuildData mockEnv "p4" "Pool: PoolD\n" = .returned
      ("Pool: PoolD\n" ++
        ("Build: nightly - in the queue for 1h0m0s. Full build data: map[owner:map[name:nightly] queueTime:2024-05-01T10:00:00Z requestId:%!s(float64=41)]\n" ++
         "Build: ci - running for 1h0m0s. Full build data: map[assignTime:2024-05-01T09:01:00Z owner:map[name:ci] queueTime:2024-05-01T09:00:00Z]\n" ++
         "Build: docs - in the queue for 1h0m0s. Full build data: map[owner:map[name:docs] queueTime:2024-05-01T10:05:00Z result:canceled]\n" ++
         "Builds in the queue: 2\n")) ∧
      ∃ st text, buildStats mockEnv "p4" sampleJobs = .returned st ∧ text = buildReport st ∧
        st.buildsInTheQueue = 2 ∧ st.buildsRunning = 1 ∧ lineCount text = 4 := by
  obtain ⟨st, text, hst, hget, htext, hq, hr, hform, _, _, hlines, _⟩ :=
    build_log_entries mockEnv "p4" fourJobsBody [("value", .array sampleJobs)] sampleJobs
      "Pool: PoolD\n" (by decide) rfl rfl (by decide)
  have hq2 : st.buildsInTheQueue = 2 := by rw [hq]; decide
  have hr1 : st.buildsRunning = 1 := by rw [hr]; decide
  refine ⟨?_, st, text, hst, htext, hq2, hr1, ?_⟩
  · rw [hget, hform, hq2]
    decide
  · have helapsed : ∀ stamp, lineCount (mockEnv.elapsed "p4" stamp) = 0 := fun _ => rfl
    have hcount := hlines (by decide) helapsed
    rw [hq2, hr1] at hcount
    exact_mod_cast hcount

/-- Counterexample to C5 as stated: pool `p5` of the stand-in server answers with one
queued build whose owner name holds a line break. The record is of the expected shape,
`buildsInTheQueue = 1` and `buildsRunning = 0`, and the text `getPoolBuildData` appends
has four lines, not `1 + 0 + 1`. -/
theorem build_log_line_count_counterexample :
    wellFormedJob twoLineNameJob = true ∧
      ∃ st, buildStats mockEnv "p5" [twoLineNameJob] = .returned st ∧
        getPoolBuildData mockEnv "p5" "" = .returned ("" ++ buildReport st) ∧
        st.buildsInTheQueue = 1 ∧ st.buildsRunning = 0 ∧
        lineCount (buildReport st) = 4 ∧
        ((lineCount (buildReport st) : Nat) : Int) ≠ st.buildsInTheQueue + st.buildsRunning + 1 := by
  refine ⟨by decide, ⟨mockEnv.queuedLine "p5" "2024-05-01T10:00:00Z"
    [("name", .string "nightly\nbuild")]
    [("queueTime", .string "2024-05-01T10:00:00Z"),
      ("owner", .object [("name", .string "nightly\nbuild")])], 1, 0⟩, ?_⟩
  decide

/-! ## Claims about the agent log -/

/-- C6: on an agent response of the expected shape the text `getPoolAgentData` appends to
the log is the eight lines `name: value` in the order totalAgents, activeAgents,
idleAgents, enabledAgents, disabledAgents, onlineAgents, offlineAgents, agentUtilization;
totalAgents is the number of records and activeAgents the number of records in which the
key `assignedRequest` is present, whatever its value. For an empty `value` array the seven
integer counters are printed as `0` and the last line is `agentUtilization: NaN`. -/
theorem agent_log_eight_lines (env : Env) (poolID : String) (body : List UInt8)
    (data : List (String × Value)) (agents : List Value) (logFile : String)
    (hreq : doRequest env (env.poolAgentURL poolID) = .returned body)
    (hdec : env.jsonUnmarshal body = some data)
    (hval : (mapRead "value" data).asArray = some agents)
    (h : ∀ a ∈ agents, wellFormedAgent a = true) :
    ∃ text utilization, getPoolAgentData env poolID logFile = .returned (logFile ++ text) ∧
      utilization = env.fmtF64 (F64.mul (F64.div
        (F64.ofInt (countOf (hasField "assignedRequest") agents))
        (F64.ofInt (countOf isEnabled agents))) (F64.ofInt 100)) ∧
      text =
        "totalAgents: " ++ fmtInt (agents.length : Int) ++ "\n" ++
        "activeAgents: " ++ fmtInt (countOf (hasField "assignedRequest") agents) ++ "\n" ++
        "idleAgents: " ++ fmtInt ((agents.length : Int) -
          countOf (hasField "assignedRequest") agents) ++ "\n" ++
        "enabledAgents: " ++ fmtInt (countOf isEnabled agents) ++ "\n" ++
        "disabledAgents: " ++ fmtInt (countOf (fun a => !isEnabled a) agents) ++ "\n" ++
        "onlineAgents: " ++ fmtInt (countOf isOnline agents) ++ "\n" ++
        "offlineAgents: " ++ fmtInt (countOf (fun a => !isOnline a) agents) ++ "\n" ++
        "agentUtilization: " ++ utilization ++ "\n" ∧
      (lineCount utilization = 0 → lineCount text = 8) ∧
      (agents = [] → text =
        "totalAgents: 0\nactiveAgents: 0\nidleAgents: 0\nenabledAgents: 0\ndisabledAgents: 0\nonlineAgents: 0\nofflineAgents: 0\nagentUtilization: NaN\n") := by
  have hrun : getPoolAgentData env poolID logFile = .returned (logFile ++ env.agentReport
      (agentSummary
        { totalAgents := (agents.length : Int)
          activeAgents := countOf hasAssignedRequest agents
          enabledAgents := countOf isEnabled agents
          disabledAgents := countOf (fun a => !isEnabled a) agents
          onlineAgents := countOf isOnline agents
          offlineAgents := countOf (fun a => !isOnline a) agents })) := by
    simp only [getPoolAgentData, hreq, agentDataFrom, hdec, hval, agentStats_wellFormed agents h]
  refine ⟨_, _, hrun, rfl, rfl, ?_, ?_⟩
  · intro hutil
    have h1 : lineCount "totalAgents: " = 0 := by decide
    have h2 : lineCount "activeAgents: " = 0 := by decide
    have h3 : lineCount "idleAgents: " = 0 := by decide
    have h4 : lineCount "enabledAgents: " = 0 := by decide
    have h5 : lineCount "disabledAgents: " = 0 := by decide
    have h6 : lineCount "onlineAgents: " = 0 := by decide
    have h7 : lineCount "offlineAgents: " = 0 := by decide
    have h8 : lineCount "agentUtilization: " = 0 := by decide
    have hnl : lineCount "\n" = 1 := by decide
    have hutil' : lineCount (env.fmtF64 (F64.mul (F64.div
        (F64.ofInt (countOf hasAssignedRequest agents))
        (F64.ofInt (countOf isEnabled agents))) (F64.ofInt 100))) = 0 := hutil
    simp only [Env.agentReport, agentSummary, lineCount_append, lineCount_fmtInt, hutil',
      h1, h2, h3, h4, h5, h6, h7, h8, hnl]
  · intro hnil
    subst hnil
    have hnan : F64.mul (F64.div (F64.ofInt 0) (F64.ofInt 0)) (F64.ofInt 100) = .nan := by decide
    simp only [Env.agentReport, agentSummary, countOf, List.countP_nil, List.length_nil,
      Nat.cast_zero, sub_zero, hnan, Env.fmtF64]
    rfl

/-- Witness of C6: pool `p1` of the stand-in server, with one enabled, online, idle
agent. -/
theorem agent_log_eight_lines_witness :
    getPoolAgentData mockEnv "p1" "Pool: PoolA\n" = .returned
      "Pool: PoolA\ntotalAgents: 1\nactiveAgents: 0\nidleAgents: 1\nenabledAgents: 1\ndisabledAgents: 0\nonlineAgents: 1\nofflineAgents: 0\nagentUtilization: 0\n" := by
  obtain ⟨text, utilization, hrun, hutil, htext, _, _⟩ :=
    agent_log_eight_lines mockEnv "p1" oneAgentBody
      [("value", .array [.object [("enabled", .bool true), ("status", .string "online")]])]
      [.object [("enabled", .bool true), ("status", .string "online")]] "Pool: PoolA\n"
      (by decide) rfl rfl (by decide)
  rw [hrun, htext, hutil]
  decide

/-! ## Claims about failures -/

/-- When both bodies fetched for a pool fail to decode and its log file can be created,
the iteration of the pool loop leaves the header line only. -/
theorem processPool_of_decode_failures (env : Env) (filename poolID poolName : String)
    (agentBody buildBody : List UInt8)
    (hreqA : doRequest env (env.poolAgentURL poolID) = .returned agentBody)
    (hdecA : env.jsonUnmarshal agentBody = none)
    (hreqB : doRequest env (env.poolBuildURL poolID) = .returned buildBody)
    (hdecB : env.jsonUnmarshal buildBody = none)
    (hcreate : env.createOk (logPath filename poolName) = true) :
    processPool env filename poolID poolName = .returned ("Pool: " ++ poolName ++ "\n") := by
  simp only [processPool, hcreate, if_true, getPoolAgentData, hreqA, agentDataFrom, hdecA,
    getPoolBuildData, hreqB, buildDataFrom, hdecB, poolHeader]

/-- A run over pools whose bodies all fail to decode completes, with one header-only log
per pool, in the order of the run. -/
theorem mainLoop_of_decode_failures (env : Env) (filename : String)
    (pools : List (String × String)) :
    ∀ written : List (String × String),
      (∀ p ∈ pools, env.createOk (logPath filename p.2) = true ∧
        (∃ body, doRequest env (env.poolAgentURL p.1) = .returned body ∧
          env.jsonUnmarshal body = none) ∧
        (∃ body, doRequest env (env.poolBuildURL p.1) = .returned body ∧
          env.jsonUnmarshal body = none)) →
      mainLoop env filename pools written = .returned
        (written ++ pools.map (fun p => (logPath filename p.2, "Pool: " ++ p.2 ++ "\n"))) := by
  induction pools with
  | nil => intro written _; simp [mainLoop]
  | cons p rest ih =>
    intro written h
    obtain ⟨poolID, poolName⟩ := p
    obtain ⟨hcreate, ⟨agentBody, hreqA, hdecA⟩, ⟨buildBody, hreqB, hdecB⟩⟩ :=
      h (poolID, poolName) (List.mem_cons_self _ _)
    have hpool := processPool_of_decode_failures env filename poolID poolName agentBody
      buildBody hreqA hdecA hreqB hdecB hcreate
    simp only [mainLoop, hpool]
    rw [ih _ (fun q hq => h q (List.mem_cons_of_mem _ hq))]
    simp [List.append_assoc]

/-- C7: on a body on which JSON decoding fails, `getPoolAgentData` and `getPoolBuildData`
each return normally and leave the log as it was, whatever the other collector does; the
empty body that `doRequest` returns after a network failure is such a body. When both
bodies fetched for a pool are of that kind, the pool's log holds the header line
`Pool: <poolName>` only and `main` goes on with the remaining pools: a run over such pools
completes with one header-only log per pool, and a run that starts with such a pool
produces exactly what the remaining pools produce after that pool's log. -/
theorem decode_failure_writes_nothing (env : Env) :
    (∀ poolID body logFile, doRequest env (env.poolAgentURL poolID) = .returned body →
      env.jsonUnmarshal body = none →
      getPoolAgentData env poolID logFile = .returned logFile) ∧
    (∀ poolID body logFile, doRequest env (env.poolBuildURL poolID) = .returned body →
      env.jsonUnmarshal body = none →
      getPoolBuildData env poolID logFile = .returned logFile) ∧
    (∀ url request, env.newRequest url = some request →
      env.roundTrip (request.setBasicAuth "" env.ADOToken) = none →
      doRequest env url = .returned [] ∧ env.jsonUnmarshal [] = none) ∧
    (∀ filename poolID poolName agentBody buildBody,
      doRequest env (env.poolAgentURL poolID) = .returned agentBody →
      env.jsonUnmarshal agentBody = none →
      doRequest env (env.poolBuildURL poolID) = .returned buildBody →
      env.jsonUnmarshal buildBody = none →
      env.createOk (logPath filename poolName) = true →
      processPool env filename poolID poolName = .returned ("Pool: " ++ poolName ++ "\n") ∧
      (∀ written, mainLoop env filename [(poolID, poolName)] written = .returned
        (written ++ [(logPath filename poolName, "Pool: " ++ poolName ++ "\n")])) ∧
      (∀ rest written, mainLoop env filename ((poolID, poolName) :: rest) written =
        mainLoop env filename rest
          (written ++ [(logPath filename poolName, "Pool: " ++ poolName ++ "\n")])) ∧
      (∀ rest written files,
        mainLoop env filename rest
          (written ++ [(logPath filename poolName, "Pool: " ++ poolName ++ "\n")]) =
            .returned files →
        mainLoop env filename ((poolID, poolName) :: rest) written = .returned files)) ∧
    (∀ filename pools written,
      (∀ p ∈ pools, env.createOk (logPath filename p.2) = true ∧
        (∃ body, doRequest env (env.poolAgentURL p.1) = .returned body ∧
          env.jsonUnmarshal body = none) ∧
        (∃ body, doRequest env (env.poolBuildURL p.1) = .returned body ∧
          env.jsonUnmarshal body = none)) →
      mainLoop env filename pools written = .returned
        (written ++ pools.map (fun p => (logPath filename p.2, "Pool: " ++ p.2 ++ "\n")))) := by
  refine ⟨?_, ?_, ?_, ?_, ?_⟩
  · intro poolID body logFile hreq hdec
    simp only [getPoolAgentData, hreq, agentDataFrom, hdec]
  · intro poolID body logFile hreq hdec
    simp only [getPoolBuildData, hreq, buildDataFrom, hdec]
  · intro url request hnew hnet
    exact ⟨by simp only [doRequest, hnew, hnet], env.jsonUnmarshal_empty⟩
  · intro filename poolID poolName agentBody buildBody hreqA hdecA hreqB hdecB hcreate
    have hpool := processPool_of_decode_failures env filename poolID poolName agentBody
      buildBody hreqA hdecA hreqB hdecB hcreate
    refine ⟨hpool, ?_, ?_, ?_⟩
    · intro written
      simp only [mainLoop, hpool]
    · intro rest written
      simp only [mainLoop, hpool]
    · intro rest written files hrest
      simp only [mainLoop, hpool, hrest]
  · intro filename pools written h
    exact mainLoop_of_decode_failures env filename pools written h

/-- Witness of C7: pool `p4` of the stand-in server answers the agents request with an
HTML page and the job requests with four builds, so that only the agent collector leaves
the log as it was; pool `p3` answers both requests with an HTML page, and the run goes on
to pool `p1` and completes. -/
theorem decode_failure_writes_nothing_witness :
    getPoolAgentData mockEnv "p4" "Pool: PoolD\n" = .returned "Pool: PoolD\n" ∧
      getPoolBuildData mockEnv "p4" "Pool: PoolD\n" ≠ .returned "Pool: PoolD\n" ∧
      getPoolBuildData mockEnv "p3" "Pool: PoolC\n" = .returned "Pool: PoolC\n" ∧
      mainLoop mockEnv "2024-05-01_10-00-00" [("p3", "PoolC")] [] =
        .returned [("pools/PoolC/2024-05-01_10-00-00", "Pool: PoolC\n")] ∧
      mainLoop mockEnv "2024-05-01_10-00-00" [("p3", "PoolC"), ("p1", "PoolA")] [] =
        .returned
          [("pools/PoolC/2024-05-01_10-00-00", "Pool: PoolC\n"),
           ("pools/PoolA/2024-05-01_10-00-00",
            "Pool: PoolA\ntotalAgents: 1\nactiveAgents: 0\nidleAgents: 1\nenabledAgents: 1\ndisabledAgents: 0\nonlineAgents: 1\nofflineAgents: 0\nagentUtilization: 0\nBuild: nightly - in the queue for 1h0m0s. Full build data: map[owner:map[name:nightly] queueTime:2024-05-01T10:00:00Z requestId:%!s(float64=41)]\nBuilds in the queue: 1\n")] := by
  obtain ⟨hA, hB, _, hpool, _⟩ := decode_failure_writes_nothing mockEnv
  obtain ⟨_, hone, _, hgo⟩ := hpool "2024-05-01_10-00-00" "p3" "PoolC"
    (bytesOf "<html></html>") (bytesOf "<html></html>") (by decide) rfl (by decide) rfl rfl
  refine ⟨hA "p4" (bytesOf "<html></html>") _ (by decide) rfl, by decide,
    hB "p3" (bytesOf "<html></html>") _ (by decide) rfl, hone [], ?_⟩
  exact hgo [("p1", "PoolA")] [] _ (by decide)

/-- C8, evaluated where it fails: for a URL with a control character the URL does not
parse, `http.NewRequest` yields a `nil` request, and `doRequest` panics on
`request.SetBasicAuth` instead of returning bytes; the collector that asked for the URL
panics with it. On every URL that does parse `doRequest` returns bytes, as claimed. -/
theorem doRequest_panics_on_unparsable_url (env : Env) (url : String)
    (h : (beforeFragment url).any isCTL = true) :
    doRequest env url = .panicked ∧
      (∀ poolID logFile, env.poolAgentURL poolID = url →
        getPoolAgentData env poolID logFile = .panicked) ∧
      (∀ other, env.urlParses other = false → doRequest env other = .panicked) ∧
      (∀ other, env.urlParses other = true →
        ∃ bodyBytes, doRequest env other = .returned bodyBytes) := by
  have hreq : doRequest env url = .panicked := by
    simp only [doRequest, Env.newRequest, env.urlParses_ctl _ h, Bool.false_eq_true, if_false]
  refine ⟨hreq, ?_, ?_, ?_⟩
  · intro poolID logFile hurl
    simp only [getPoolAgentData, hurl, hreq]
  · intro other hbad
    simp only [doRequest, Env.newRequest, hbad, Bool.false_eq_true, if_false]
  · intro other hok
    simp only [doRequest, Env.newRequest, hok, if_true]
    cases env.roundTrip (Request.setBasicAuth { url := other, basicAuth := none } "" env.ADOToken)
    · exact ⟨[], rfl⟩
    · exact ⟨_, rfl⟩

/-- Witness of C8's failing input: a pool identifier ending in a line feed. -/
theorem doRequest_panics_on_unparsable_url_witness :
    doRequest mockEnv (mockEnv.poolAgentURL "7\n") = .panicked ∧
      getPoolAgentData mockEnv "7\n" "Pool: PoolA\n" = .panicked ∧
      mainLoop mockEnv "2024-05-01_10-00-00" [("7\n", "PoolA")] [] = .panicked := by
  obtain ⟨hreq, hget, _, _⟩ :=
    doRequest_panics_on_unparsable_url mockEnv (mockEnv.poolAgentURL "7\n") (by decide)
  exact ⟨hreq, hget "7\n" "Pool: PoolA\n" rfl, by decide⟩

/-- A record that is not of the expected shape (not an object, or without a boolean
`enabled`) makes the agent loop panic. -/
theorem agentStats_panicked_of_malformed (agents : List Value) (a : Value) (ha : a ∈ agents)
    (hbad : wellFormedAgent a = false) : agentStats agents = .panicked := by
  cases hs : agentStats agents with
  | panicked => rfl
  | returned s =>
    have := agentStats_returned agents s hs a ha
    rw [hbad] at this
    exact absurd this Bool.false_ne_true

/-- An element that is not an object, or a queued build without a string `queueTime` or
without an `owner` object, makes an iteration of the build loop panic. -/
theorem buildStep_panicked_of_malformed (env : Env) (poolID : String) (st : BuildState)
    (j : Value)
    (hbad : j.asObject = none ∨ (hasField "assignTime" j = false ∧
      ((field "queueTime" j).asString = none ∨ (field "owner" j).asObject = none))) :
    buildStep env poolID st j = .panicked := by
  cases j with
  | object build =>
    rcases hbad with hobj | ⟨hassign, hq | ho⟩
    · simp [Value.asObject] at hobj
    · simp only [hasField] at hassign
      simp only [field] at hq
      simp [buildStep, Value.asObject, queuedBranch, hassign, hq]
    · simp only [hasField] at hassign
      simp only [field] at ho
      have hobj : (Value.object build).asObject = some build := rfl
      simp only [buildStep, hobj, queuedBranch, hassign, Bool.false_eq_true, if_false, ho]
      cases (mapRead "queueTime" build).asString <;> rfl
  | _ => simp [buildStep, Value.asObject]

theorem buildLoop_panicked_of_step (env : Env) (poolID : String) (jobs : List Value) (j : Value)
    (hj : j ∈ jobs) (hstep : ∀ st, buildStep env poolID st j = .panicked) :
    ∀ st, buildLoop env poolID st jobs = .panicked := by
  induction jobs with
  | nil => simp at hj
  | cons b rest ih =>
    intro st
    simp only [buildLoop]
    cases hb : buildStep env poolID st b with
    | panicked => rfl
    | returned st1 =>
      rcases List.mem_cons.mp hj with rfl | hmem
      · rw [hstep st] at hb
        cases hb
      · exact ih hmem st1

/-- C9, evaluated where it fails: on a body that decodes without error but lacks the
expected shape the collectors panic on an unchecked type assertion. This happens when
`value` is absent or is not an array (the literal `null`, the empty object, an error
object),
when an agent record is not an object or has no boolean `enabled`, and when a job request
is not an object or is queued without a string `queueTime` or without an `owner` object. -/
theorem collectors_panic_on_unexpected_shape (env : Env) (poolID : String)
    (body : List UInt8) (data : List (String × Value)) (logFile : String)
    (hdec : env.jsonUnmarshal body = some data) :
    ((mapRead "value" data).asArray = none →
      agentDataFrom env body logFile = .panicked ∧
      buildDataFrom env poolID body logFile = .panicked) ∧
    (∀ records r, (mapRead "value" data).asArray = some records → r ∈ records →
      (wellFormedAgent r = false → agentDataFrom env body logFile = .panicked) ∧
      ((r.asObject = none ∨ (hasField "assignTime" r = false ∧
          ((field "queueTime" r).asString = none ∨ (field "owner" r).asObject = none))) →
        buildDataFrom env poolID body logFile = .panicked)) := by
  constructor
  · intro hval
    simp only [agentDataFrom, buildDataFrom, hdec, hval, and_self]
  · intro records r hval hr
    constructor
    · intro hbad
      simp only [agentDataFrom, hdec, hval, agentStats_panicked_of_malformed records r hr hbad]
    · intro hbad
      have hloop := buildLoop_panicked_of_step env poolID records r hr
        (fun st => buildStep_panicked_of_malformed env poolID st r hbad) BuildState.init
      simp only [buildDataFrom, hdec, hval, buildStats, hloop]

/-- Witness of C9's failing input: pool `p2` of the stand-in server answers with the
empty object. -/
theorem collectors_panic_on_unexpected_shape_witness :
    (agentDataFrom mockEnv emptyObjectBody "Pool: PoolB\n" = .panicked ∧
      buildDataFrom mockEnv "p2" emptyObjectBody "Pool: PoolB\n" = .panicked) ∧
    getPoolAgentData mockEnv "p2" "Pool: PoolB\n" = .panicked ∧
    mainLoop mockEnv "2024-05-01_10-00-00" [("p2", "PoolB"), ("p1", "PoolA")] [] = .panicked := by
  refine ⟨(collectors_panic_on_unexpected_shape mockEnv "p2" emptyObjectBody [] "Pool: PoolB\n"
    rfl).1 rfl, ?_, ?_⟩ <;> decide

/-! ## Accuracy of the `float64` operations -/

theorem bitLenAux_zero (fuel : Nat) : bitLenAux fuel 0 = 0 := by
  cases fuel <;> simp [bitLenAux]

theorem bitLenAux_spec : ∀ fuel n : Nat, n ≤ fuel → 0 < n →
    2 ^ (bitLenAux fuel n - 1) ≤ n ∧ n < 2 ^ bitLenAux fuel n ∧ 0 < bitLenAux fuel n := by
  intro fuel
  induction fuel with
  | zero => intro n h0 hpos; omega
  | succ fuel ih =>
    intro n hle hpos
    have hne : n ≠ 0 := by omega
    simp only [bitLenAux, hne, if_false, Nat.add_sub_cancel]
    by_cases hhalf : n / 2 = 0
    · have h1 : n = 1 := by omega
      subst h1
      simp [bitLenAux_zero]
    · obtain ⟨hlo, hhi, hb⟩ := ih (n / 2) (by omega) (by omega)
      refine ⟨?_, ?_, by omega⟩
      · have : 2 ^ bitLenAux fuel (n / 2) = 2 * 2 ^ (bitLenAux fuel (n / 2) - 1) := by
          rw [← pow_succ']
          congr 1
          omega
        omega
      · rw [pow_succ]
        omega

theorem bitLen_spec (n : Nat) (hpos : 0 < n) :
    2 ^ (bitLen n - 1) ≤ n ∧ n < 2 ^ bitLen n ∧ 0 < bitLen n :=
  bitLenAux_spec n n (le_refl n) hpos


theorem two_zpow_pos (k : Int) : (0 : ℚ) < (2 : ℚ) ^ k := zpow_pos (by norm_num) k

theorem pow2Le_iff (k : Int) (n d : Nat) (hd : 0 < d) :
    pow2Le k n d = true ↔ (2 : ℚ) ^ k ≤ (n : ℚ) / d := by
  have hdq : (0 : ℚ) < d := by exact_mod_cast hd
  unfold pow2Le
  by_cases hk : 0 ≤ k
  · obtain ⟨j, rfl⟩ := Int.eq_ofNat_of_zero_le hk
    simp only [hk, if_true, Int.toNat_ofNat, decide_eq_true_eq, zpow_natCast]
    rw [le_div_iff₀ hdq]
    constructor
    · intro h
      have : ((d * 2 ^ j : ℕ) : ℚ) ≤ (n : ℚ) := by exact_mod_cast h
      push_cast at this
      linarith
    · intro h
      have : ((d * 2 ^ j : ℕ) : ℚ) ≤ (n : ℚ) := by push_cast; linarith
      exact_mod_cast this
  · obtain ⟨j, hj⟩ : ∃ j : ℕ, k = -(j : ℤ) := ⟨(-k).toNat, by omega⟩
    subst hj
    simp only [hk, if_false, neg_neg, Int.toNat_ofNat, decide_eq_true_eq, zpow_neg, zpow_natCast]
    have hp : (0 : ℚ) < (2 : ℚ) ^ j := by positivity
    rw [le_div_iff₀ hdq, inv_mul_le_iff₀ hp]
    constructor
    · intro h
      have : ((d : ℕ) : ℚ) ≤ ((n * 2 ^ j : ℕ) : ℚ) := by exact_mod_cast h
      push_cast at this
      linarith
    · intro h
      have : ((d : ℕ) : ℚ) ≤ ((n * 2 ^ j : ℕ) : ℚ) := by push_cast; linarith
      exact_mod_cast this

theorem ulpExp_eq (n d : Nat) : ulpExp n d = max (binExp n d - 52) (-1074) := rfl

theorem binExp_spec (n d : Nat) (hn : 0 < n) (hd : 0 < d) :
    (2 : ℚ) ^ binExp n d ≤ (n : ℚ) / d ∧ (n : ℚ) / d < (2 : ℚ) ^ (binExp n d + 1) := by
  have hdq : (0 : ℚ) < d := by exact_mod_cast hd
  obtain ⟨hnlo, hnhi, hnb⟩ := bitLen_spec n hn
  obtain ⟨hdlo, hdhi, hdb⟩ := bitLen_spec d hd
  have hnlo' : (2 : ℚ) ^ ((bitLen n : Int) - 1) ≤ n := by
    have : ((2 ^ (bitLen n - 1) : ℕ) : ℚ) ≤ n := by exact_mod_cast hnlo
    have he : ((bitLen n : Int) - 1) = ((bitLen n - 1 : ℕ) : Int) := by omega
    rw [he, zpow_natCast]
    exact_mod_cast this
  have hnhi' : (n : ℚ) < (2 : ℚ) ^ (bitLen n : Int) := by
    rw [zpow_natCast]; exact_mod_cast hnhi
  have hdlo' : (2 : ℚ) ^ ((bitLen d : Int) - 1) ≤ d := by
    have : ((2 ^ (bitLen d - 1) : ℕ) : ℚ) ≤ d := by exact_mod_cast hdlo
    have he : ((bitLen d : Int) - 1) = ((bitLen d - 1 : ℕ) : Int) := by omega
    rw [he, zpow_natCast]
    exact_mod_cast this
  have hdhi' : (d : ℚ) < (2 : ℚ) ^ (bitLen d : Int) := by
    rw [zpow_natCast]; exact_mod_cast hdhi
  unfold binExp
  by_cases hp : pow2Le ((bitLen n : Int) - (bitLen d : Int)) n d = true
  · simp only [hp, if_true]
    refine ⟨(pow2Le_iff _ n d hd).mp hp, ?_⟩
    rw [div_lt_iff₀ hdq]
    have h2 : (2 : ℚ) ^ ((bitLen n : Int) - (bitLen d : Int) + 1) * (2 : ℚ) ^ ((bitLen d : Int) - 1) =
        (2 : ℚ) ^ (bitLen n : Int) := by
      rw [← zpow_add₀ (by norm_num : (2 : ℚ) ≠ 0)]
      congr 1
      ring
    calc (n : ℚ) < (2 : ℚ) ^ (bitLen n : Int) := hnhi'
      _ = (2 : ℚ) ^ ((bitLen n : Int) - (bitLen d : Int) + 1) * (2 : ℚ) ^ ((bitLen d : Int) - 1) := h2.symm
      _ ≤ (2 : ℚ) ^ ((bitLen n : Int) - (bitLen d : Int) + 1) * d :=
        mul_le_mul_of_nonneg_left hdlo' (le_of_lt (two_zpow_pos _))
  · have hp' : ¬ (2 : ℚ) ^ ((bitLen n : Int) - (bitLen d : Int)) ≤ (n : ℚ) / d :=
      fun h => hp ((pow2Le_iff _ n d hd).mpr h)
    rw [if_neg hp]
    refine ⟨?_, ?_⟩
    · rw [le_div_iff₀ hdq]
      have h2 : (2 : ℚ) ^ ((bitLen n : Int) - (bitLen d : Int) - 1) * (2 : ℚ) ^ (bitLen d : Int) =
          (2 : ℚ) ^ ((bitLen n : Int) - 1) := by
        rw [← zpow_add₀ (by norm_num : (2 : ℚ) ≠ 0)]
        congr 1
        ring
      calc (2 : ℚ) ^ ((bitLen n : Int) - (bitLen d : Int) - 1) * d
          ≤ (2 : ℚ) ^ ((bitLen n : Int) - (bitLen d : Int) - 1) * (2 : ℚ) ^ (bitLen d : Int) :=
            mul_le_mul_of_nonneg_left (le_of_lt hdhi') (le_of_lt (two_zpow_pos _))
        _ = (2 : ℚ) ^ ((bitLen n : Int) - 1) := h2
        _ ≤ n := hnlo'
    · have : (bitLen n : Int) - (bitLen d : Int) - 1 + 1 = (bitLen n : Int) - (bitLen d : Int) := by
        ring
      rw [this]
      exact lt_of_not_le hp'

theorem roundQuot_spec (n d : Nat) (hd : 0 < d) :
    |((roundQuot n d : ℕ) : ℚ) - (n : ℚ) / d| ≤ 1 / 2 := by
  have hdq : (0 : ℚ) < d := by exact_mod_cast hd
  have hdiv : (n : ℚ) / d = (n / d : ℕ) + ((n % d : ℕ) : ℚ) / d := by
    have h := Nat.div_add_mod n d
    have hq : (n : ℚ) = (d : ℚ) * (n / d : ℕ) + (n % d : ℕ) := by exact_mod_cast h.symm
    field_simp
    linarith
  have hr0 : (0 : ℚ) ≤ ((n % d : ℕ) : ℚ) / d := by positivity
  have hr1 : ((n % d : ℕ) : ℚ) / d < 1 := by
    rw [div_lt_one hdq]
    exact_mod_cast Nat.mod_lt n hd
  unfold roundQuot
  simp only
  split_ifs with h1 h2
  · have : (d : ℚ) < 2 * ((n % d : ℕ) : ℚ) := by exact_mod_cast h1
    have h3 : (1 : ℚ) / 2 < ((n % d : ℕ) : ℚ) / d := by
      rw [div_lt_div_iff₀ (by norm_num) hdq]; linarith
    rw [hdiv, abs_le]
    push_cast
    constructor <;> linarith
  · have : 2 * ((n % d : ℕ) : ℚ) = (d : ℚ) := by exact_mod_cast h2.1
    have h3 : ((n % d : ℕ) : ℚ) / d = 1 / 2 := by
      rw [div_eq_div_iff (ne_of_gt hdq) (by norm_num)]; linarith
    rw [hdiv, abs_le]
    push_cast
    constructor <;> linarith
  · have : ¬ (d : ℚ) < 2 * ((n % d : ℕ) : ℚ) := by
      intro h; exact h1 (by exact_mod_cast h)
    have h3 : ((n % d : ℕ) : ℚ) / d ≤ 1 / 2 := by
      rw [div_le_div_iff₀ hdq (by norm_num)]; linarith
    rw [hdiv, abs_le]
    constructor <;> linarith

theorem roundQuot_le (n d B : Nat) (hd : 0 < d) (h : n ≤ B * d) : roundQuot n d ≤ B := by
  unfold roundQuot
  simp only
  have hq : n / d ≤ B := Nat.div_le_of_le_mul (by rw [Nat.mul_comm]; exact h)
  by_cases hlt : n / d < B
  · split_ifs <;> omega
  · have heq : n / d = B := by omega
    have hmod : n % d = 0 := by
      have := Nat.div_add_mod n d
      rw [heq] at this
      have h' : d * B + n % d ≤ B * d := by omega
      have : d * B = B * d := Nat.mul_comm _ _
      omega
    rw [hmod, heq]
    split_ifs <;> omega


theorem two_pow_toNat_quot (t : Int) :
    (((2 ^ t.toNat : ℕ) : ℚ)) / ((2 ^ (-t).toNat : ℕ) : ℚ) = (2 : ℚ) ^ t := by
  by_cases ht : 0 ≤ t
  · obtain ⟨j, rfl⟩ := Int.eq_ofNat_of_zero_le ht
    have h0 : (-(j : ℤ)).toNat = 0 := by omega
    simp [h0]
  · obtain ⟨j, hj⟩ : ∃ j : ℕ, t = -(j : ℤ) := ⟨(-t).toNat, by omega⟩
    subst hj
    have h0 : (-(j : ℤ)).toNat = 0 := by omega
    simp [h0]

theorem scaledQuot_spec (n d : Nat) (e : Int) (hd : 0 < d) :
    |((scaledQuot n d e : ℕ) : ℚ) * (2 : ℚ) ^ e - (n : ℚ) / d| ≤ (2 : ℚ) ^ e / 2 := by
  have hdq : (0 : ℚ) < d := by exact_mod_cast hd
  have hpe : (0 : ℚ) < (2 : ℚ) ^ e := two_zpow_pos e
  unfold scaledQuot
  by_cases he : 0 ≤ e
  · obtain ⟨j, rfl⟩ := Int.eq_ofNat_of_zero_le he
    simp only [he, if_true, Int.toNat_ofNat, zpow_natCast]
    have hpj : (0 : ℚ) < (2 : ℚ) ^ j := by positivity
    have hspec := roundQuot_spec n (d * 2 ^ j) (by positivity)
    have hrew : ((roundQuot n (d * 2 ^ j) : ℕ) : ℚ) * (2 : ℚ) ^ j - (n : ℚ) / d =
        (((roundQuot n (d * 2 ^ j) : ℕ) : ℚ) - (n : ℚ) / ((d * 2 ^ j : ℕ) : ℚ)) * (2 : ℚ) ^ j := by
      push_cast
      field_simp
      ring
    rw [hrew, abs_mul, abs_of_pos hpj]
    calc |((roundQuot n (d * 2 ^ j) : ℕ) : ℚ) - (n : ℚ) / ((d * 2 ^ j : ℕ) : ℚ)| * (2 : ℚ) ^ j
        ≤ 1 / 2 * (2 : ℚ) ^ j := mul_le_mul_of_nonneg_right hspec (le_of_lt hpj)
      _ = (2 : ℚ) ^ j / 2 := by ring
  · obtain ⟨j, hj⟩ : ∃ j : ℕ, e = -(j : ℤ) := ⟨(-e).toNat, by omega⟩
    subst hj
    simp only [he, if_false, neg_neg, Int.toNat_ofNat, zpow_neg, zpow_natCast]
    have hpj : (0 : ℚ) < (2 : ℚ) ^ j := by positivity
    have hspec := roundQuot_spec (n * 2 ^ j) d hd
    have hrew : ((roundQuot (n * 2 ^ j) d : ℕ) : ℚ) * ((2 : ℚ) ^ j)⁻¹ - (n : ℚ) / d =
        (((roundQuot (n * 2 ^ j) d : ℕ) : ℚ) - ((n * 2 ^ j : ℕ) : ℚ) / d) * ((2 : ℚ) ^ j)⁻¹ := by
      push_cast
      field_simp
      ring
    rw [hrew, abs_mul, abs_of_pos (inv_pos.mpr hpj)]
    calc |((roundQuot (n * 2 ^ j) d : ℕ) : ℚ) - ((n * 2 ^ j : ℕ) : ℚ) / d| * ((2 : ℚ) ^ j)⁻¹
        ≤ 1 / 2 * ((2 : ℚ) ^ j)⁻¹ := mul_le_mul_of_nonneg_right hspec (le_of_lt (inv_pos.mpr hpj))
      _ = ((2 : ℚ) ^ j)⁻¹ / 2 := by ring

theorem F64.IsVal.toRat {x : F64} {q : ℚ} (h : x.IsVal q) : x.toRat? = some q := by
  obtain ⟨m, e, rfl, hq⟩ := h
  simp [F64.toRat?, hq]

/-- Rounding in the normal range: the result is finite, within half a unit in the last
place of `n / d`. -/
theorem round_normal (n d : Nat) (hn : 0 < n) (hd : 0 < d)
    (hlo : (2 : ℚ) ^ (-1022 : Int) ≤ (n : ℚ) / d) (hhi : (n : ℚ) / d < (2 : ℚ) ^ (1023 : Int)) :
    ∃ r, (F64.round false n d).IsVal r ∧ |r - (n : ℚ) / d| ≤ (n : ℚ) / d * (2 : ℚ) ^ (-53 : Int) := by
  obtain ⟨hklo, hkhi⟩ := binExp_spec n d hn hd
  have h2 : (1 : ℚ) < 2 := by norm_num
  have hk1 : binExp n d < 1023 :=
    (zpow_lt_zpow_iff_right₀ h2).mp (lt_of_le_of_lt hklo hhi)
  have hk2 : -1022 < binExp n d + 1 :=
    (zpow_lt_zpow_iff_right₀ h2).mp (lt_of_le_of_lt hlo hkhi)
  have he : ulpExp n d = binExp n d - 52 := by
    rw [ulpExp_eq]; omega
  refine ⟨((scaledQuot n d (binExp n d - 52) : ℕ) : ℚ) * (2 : ℚ) ^ (binExp n d - 52), ?_, ?_⟩
  · refine ⟨_, _, ?_, rfl⟩
    have hne : n ≠ 0 := by omega
    simp only [F64.round, hne, if_false, he]
    rw [if_neg]
    omega
  · have hspec := scaledQuot_spec n d (binExp n d - 52) hd
    have hpow : (2 : ℚ) ^ (binExp n d - 52) / 2 = (2 : ℚ) ^ binExp n d * (2 : ℚ) ^ (-53 : Int) := by
      rw [← zpow_add₀ (by norm_num : (2 : ℚ) ≠ 0), div_eq_mul_inv, ← zpow_neg_one,
        ← zpow_add₀ (by norm_num : (2 : ℚ) ≠ 0)]
      congr 1
      ring
    calc _ ≤ (2 : ℚ) ^ (binExp n d - 52) / 2 := hspec
      _ = (2 : ℚ) ^ binExp n d * (2 : ℚ) ^ (-53 : Int) := hpow
      _ ≤ (n : ℚ) / d * (2 : ℚ) ^ (-53 : Int) :=
        mul_le_mul_of_nonneg_right hklo (le_of_lt (two_zpow_pos _))

/-- Rounding below `2 ^ 53` never exceeds a natural bound of the exact quotient. -/
theorem round_le_nat (n d B : Nat) (hn : 0 < n) (hd : 0 < d) (hB : n ≤ B * d)
    (hhi : (n : ℚ) / d < (2 : ℚ) ^ (53 : Int)) :
    ∃ r, (F64.round false n d).IsVal r ∧ r ≤ B := by
  obtain ⟨hklo, _⟩ := binExp_spec n d hn hd
  have h2 : (1 : ℚ) < 2 := by norm_num
  have hk1 : binExp n d < 53 :=
    (zpow_lt_zpow_iff_right₀ h2).mp (lt_of_le_of_lt hklo hhi)
  have he : ulpExp n d ≤ 0 := by
    rw [ulpExp_eq]; omega
  obtain ⟨j, hj⟩ : ∃ j : ℕ, ulpExp n d = -(j : ℤ) := ⟨(-ulpExp n d).toNat, by omega⟩
  refine ⟨((scaledQuot n d (ulpExp n d) : ℕ) : ℚ) * (2 : ℚ) ^ (ulpExp n d), ?_, ?_⟩
  · refine ⟨_, _, ?_, rfl⟩
    have hne : n ≠ 0 := by omega
    simp only [F64.round, hne, if_false]
    rw [if_neg]
    omega
  · have hle : scaledQuot n d (ulpExp n d) ≤ B * 2 ^ j := by
      unfold scaledQuot
      by_cases h0 : 0 ≤ ulpExp n d
      · have hj0 : j = 0 := by omega
        have he0 : ulpExp n d = 0 := by omega
        simp only [he0, le_refl, if_true, Int.toNat_zero, pow_zero, mul_one, hj0]
        exact roundQuot_le n d B hd hB
      · rw [hj] at h0
        rw [hj, if_neg h0]
        simp only [neg_neg, Int.toNat_ofNat]
        apply roundQuot_le _ _ _ hd
        calc n * 2 ^ j ≤ B * d * 2 ^ j := Nat.mul_le_mul_right _ hB
          _ = B * 2 ^ j * d := by ring
    have hpj : (0 : ℚ) < (2 : ℚ) ^ j := by positivity
    have hq : ((scaledQuot n d (ulpExp n d) : ℕ) : ℚ) ≤ (B : ℚ) * (2 : ℚ) ^ j := by
      exact_mod_cast hle
    rw [hj, zpow_neg, zpow_natCast]
    calc ((scaledQuot n d (-(j : ℤ)) : ℕ) : ℚ) * ((2 : ℚ) ^ j)⁻¹
        ≤ (B : ℚ) * (2 : ℚ) ^ j * ((2 : ℚ) ^ j)⁻¹ := by
          rw [hj] at hq
          exact mul_le_mul_of_nonneg_right hq (le_of_lt (inv_pos.mpr hpj))
      _ = B := by field_simp


theorem F64.IsVal.unique {x : F64} {q q' : ℚ} (h : x.IsVal q) (h' : x.IsVal q') : q = q' := by
  obtain ⟨m, e, hx, hq⟩ := h
  obtain ⟨m', e', hx', hq'⟩ := h'
  rw [hx] at hx'
  cases hx'
  rw [← hq, ← hq']

theorem F64.IsVal.nonneg {x : F64} {q : ℚ} (h : x.IsVal q) : 0 ≤ q := by
  obtain ⟨m, e, _, hq⟩ := h
  rw [← hq]
  exact mul_nonneg (Nat.cast_nonneg m) (le_of_lt (two_zpow_pos e))

theorem roundQuot_one (n : Nat) : roundQuot n 1 = n := by
  simp [roundQuot, Nat.mod_one]

/-- The conversion `float64(i)` is exact below `2 ^ 53`. -/
theorem ofInt_isVal (i : Nat) (hi : i < 2 ^ 53) : (F64.ofInt (i : Int)).IsVal i := by
  have hneg : decide (((i : Nat) : Int) < 0) = false := by simp
  unfold F64.ofInt
  rw [hneg, Int.natAbs_ofNat]
  by_cases h0 : i = 0
  · subst h0
    exact ⟨0, 0, by simp [F64.round], by simp⟩
  · have hpos : 0 < i := Nat.pos_of_ne_zero h0
    obtain ⟨hklo, _⟩ := binExp_spec i 1 hpos Nat.one_pos
    have h2 : (1 : ℚ) < 2 := by norm_num
    have hlt : ((i : ℕ) : ℚ) / ((1 : ℕ) : ℚ) < (2 : ℚ) ^ (53 : Int) := by
      have : ((i : ℕ) : ℚ) < ((2 ^ 53 : ℕ) : ℚ) := by exact_mod_cast hi
      rw [Nat.cast_one, div_one]
      calc ((i : ℕ) : ℚ) < ((2 ^ 53 : ℕ) : ℚ) := this
        _ = (2 : ℚ) ^ (53 : Int) := by norm_num
    have hk1 : binExp i 1 < 53 := (zpow_lt_zpow_iff_right₀ h2).mp (lt_of_le_of_lt hklo hlt)
    have he : ulpExp i 1 ≤ 0 := by rw [ulpExp_eq]; omega
    obtain ⟨j, hj⟩ : ∃ j : ℕ, ulpExp i 1 = -(j : ℤ) := ⟨(-ulpExp i 1).toNat, by omega⟩
    have hm : scaledQuot i 1 (ulpExp i 1) = i * 2 ^ j := by
      unfold scaledQuot
      by_cases h0' : 0 ≤ ulpExp i 1
      · have hj0 : j = 0 := by omega
        have he0 : ulpExp i 1 = 0 := by omega
        simp [he0, hj0, roundQuot_one]
      · rw [hj] at h0'
        rw [hj, if_neg h0']
        simp [roundQuot_one]
    refine ⟨i * 2 ^ j, -(j : ℤ), ?_, ?_⟩
    · simp only [F64.round, h0, if_false, hm]
      rw [if_neg (by omega), hj]
    · have hpj : (0 : ℚ) < (2 : ℚ) ^ j := by positivity
      push_cast
      rw [zpow_neg, zpow_natCast]
      field_simp

/-- A quotient of positive finite floats is the rounding of the exact quotient. -/
theorem div_eq_round {x y : F64} {a b : ℚ} (hx : x.IsVal a) (hy : y.IsVal b)
    (ha : 0 < a) (hb : 0 < b) :
    ∃ n d : Nat, 0 < n ∧ 0 < d ∧ F64.div x y = F64.round false n d ∧ (n : ℚ) / d = a / b := by
  obtain ⟨m, e, rfl, hqa⟩ := hx
  obtain ⟨m', e', rfl, hqb⟩ := hy
  have hm : m ≠ 0 := by
    rintro rfl
    simp at hqa
    linarith
  have hm' : m' ≠ 0 := by
    rintro rfl
    simp at hqb
    linarith
  refine ⟨m * 2 ^ (e - e').toNat, m' * 2 ^ (e' - e).toNat, by positivity, by positivity, ?_, ?_⟩
  · simp [F64.div, hm']
  · have hr := two_pow_toNat_quot (e - e')
    have hneg : (-(e - e')).toNat = (e' - e).toNat := by congr 1; ring
    rw [hneg] at hr
    have hpe' : (2 : ℚ) ^ e' ≠ 0 := ne_of_gt (two_zpow_pos e')
    have hm'q : ((m' : ℕ) : ℚ) ≠ 0 := by exact_mod_cast hm'
    have hd2 : (((2 ^ (e' - e).toNat : ℕ)) : ℚ) ≠ 0 := by positivity
    rw [← hqa, ← hqb]
    push_cast at hr ⊢
    rw [mul_div_mul_comm, hr, zpow_sub₀ (by norm_num : (2 : ℚ) ≠ 0)]
    field_simp

/-- A product of positive finite floats is the rounding of the exact product. -/
theorem mul_eq_round {x y : F64} {a b : ℚ} (hx : x.IsVal a) (hy : y.IsVal b)
    (ha : 0 < a) (hb : 0 < b) :
    ∃ n d : Nat, 0 < n ∧ 0 < d ∧ F64.mul x y = F64.round false n d ∧ (n : ℚ) / d = a * b := by
  obtain ⟨m, e, rfl, hqa⟩ := hx
  obtain ⟨m', e', rfl, hqb⟩ := hy
  have hm : m ≠ 0 := by
    rintro rfl
    simp at hqa
    linarith
  have hm' : m' ≠ 0 := by
    rintro rfl
    simp at hqb
    linarith
  refine ⟨m * m' * 2 ^ (e + e').toNat, 2 ^ (-(e + e')).toNat, by positivity, by positivity,
    ?_, ?_⟩
  · simp [F64.mul]
  · have hr := two_pow_toNat_quot (e + e')
    rw [← hqa, ← hqb]
    push_cast at hr ⊢
    rw [mul_div_assoc, hr, zpow_add₀ (by norm_num : (2 : ℚ) ≠ 0)]
    ring

theorem div_zero_isVal {x y : F64} {b : ℚ} (hx : x.IsVal 0) (hy : y.IsVal b) (hb : 0 < b) :
    (F64.div x y).IsVal 0 := by
  obtain ⟨m, e, rfl, hqa⟩ := hx
  obtain ⟨m', e', rfl, hqb⟩ := hy
  have hm : m = 0 := by
    have hpe : (2 : ℚ) ^ e ≠ 0 := ne_of_gt (two_zpow_pos e)
    have : ((m : ℕ) : ℚ) = 0 := by
      rcases mul_eq_zero.mp hqa with h | h
      · exact h
      · exact absurd h hpe
    exact_mod_cast this
  have hm' : m' ≠ 0 := by
    rintro rfl
    simp at hqb
    linarith
  subst hm
  exact ⟨0, 0, by simp [F64.div, hm', F64.round], by simp⟩

theorem zero_mul_isVal {x y : F64} {b : ℚ} (hx : x.IsVal 0) (hy : y.IsVal b) :
    (F64.mul x y).IsVal 0 := by
  obtain ⟨m, e, rfl, hqa⟩ := hx
  obtain ⟨m', e', rfl, _⟩ := hy
  have hm : m = 0 := by
    have hpe : (2 : ℚ) ^ e ≠ 0 := ne_of_gt (two_zpow_pos e)
    have : ((m : ℕ) : ℚ) = 0 := by
      rcases mul_eq_zero.mp hqa with h | h
      · exact h
      · exact absurd h hpe
    exact_mod_cast this
  subst hm
  exact ⟨0, 0, by simp [F64.mul, F64.round], by simp⟩


/-- The float computed on line 104 from counters below `2 ^ 53`: it is finite, within a
relative error of `2 ^ -51` of the exact quotient, and at most `100` when the numerator
does not exceed the denominator. -/
theorem utilization_spec (a b : Nat) (ha : a < 2 ^ 53) (hb0 : 0 < b) (hb : b < 2 ^ 53) :
    ∃ u, (F64.mul (F64.div (F64.ofInt (a : Int)) (F64.ofInt (b : Int))) (F64.ofInt 100)).IsVal u ∧
      |u - (a : ℚ) / b * 100| ≤ (a : ℚ) / b * 100 * (2 : ℚ) ^ (-51 : Int) ∧
      (a ≤ b → u ≤ 100) := by
  have hx := ofInt_isVal a ha
  have hy := ofInt_isVal b hb
  have h100 : (F64.ofInt 100).IsVal 100 := by
    have := ofInt_isVal 100 (by norm_num)
    simpa using this
  have hbq : (0 : ℚ) < b := by exact_mod_cast hb0
  by_cases ha0 : a = 0
  · subst ha0
    have hx0 : (F64.ofInt ((0 : ℕ) : Int)).IsVal 0 := by simpa using hx
    refine ⟨0, zero_mul_isVal (div_zero_isVal hx0 hy hbq) h100, ?_, fun _ => by norm_num⟩
    simp
  · have hapos : 0 < a := Nat.pos_of_ne_zero ha0
    have haq : (0 : ℚ) < a := by exact_mod_cast hapos
    have haq1 : (1 : ℚ) ≤ a := by exact_mod_cast hapos
    have hbq1 : (1 : ℚ) ≤ b := by exact_mod_cast hb0
    have hahi : (a : ℚ) < 2 ^ 53 := by exact_mod_cast ha
    have hbhi : (b : ℚ) < 2 ^ 53 := by exact_mod_cast hb
    have hε : (2 : ℚ) ^ (-53 : Int) = 1 / 2 ^ 53 := by norm_num
    have hε51 : (2 : ℚ) ^ (-51 : Int) = 4 * (1 / 2 ^ 53) := by norm_num
    -- the quotient
    have hqpos : (0 : ℚ) < (a : ℚ) / b := div_pos haq hbq
    have hqlo : (1 : ℚ) / 2 ^ 53 ≤ (a : ℚ) / b := by
      rw [div_le_div_iff₀ (by positivity) hbq]
      nlinarith
    have hqhi : (a : ℚ) / b < 2 ^ 53 := by
      rw [div_lt_iff₀ hbq]
      nlinarith
    obtain ⟨n, d, hn, hd, hdiv, hq⟩ := div_eq_round hx hy haq hbq
    have hlo1 : (2 : ℚ) ^ (-1022 : Int) ≤ (n : ℚ) / d := by
      rw [hq]
      calc (2 : ℚ) ^ (-1022 : Int) ≤ (2 : ℚ) ^ (-53 : Int) :=
            zpow_le_zpow_right₀ (by norm_num) (by norm_num)
        _ = 1 / 2 ^ 53 := hε
        _ ≤ (a : ℚ) / b := hqlo
    have hhi1 : (n : ℚ) / d < (2 : ℚ) ^ (1023 : Int) := by
      rw [hq]
      calc (a : ℚ) / b < 2 ^ 53 := hqhi
        _ = (2 : ℚ) ^ (53 : Int) := by norm_num
        _ ≤ (2 : ℚ) ^ (1023 : Int) := zpow_le_zpow_right₀ (by norm_num) (by norm_num)
    obtain ⟨r1, hr1, hacc1⟩ := round_normal n d hn hd hlo1 hhi1
    rw [← hdiv] at hr1
    rw [hq, hε] at hacc1
    have habs1 := abs_le.mp hacc1
    have ht0 : (0 : ℚ) ≤ (a : ℚ) / b * (1 / 2 ^ 53) := by positivity
    have ht1 : (a : ℚ) / b * (1 / 2 ^ 53) ≤ (a : ℚ) / b / 2 := by
      have : (1 : ℚ) / 2 ^ 53 ≤ 1 / 2 := by norm_num
      have := mul_le_mul_of_nonneg_left this (le_of_lt hqpos)
      linarith
    have hr1pos : (0 : ℚ) < r1 := by linarith [habs1.1]
    have hr1lo : (1 : ℚ) / 2 ^ 54 ≤ r1 := by
      have : (1 : ℚ) / 2 ^ 54 = 1 / 2 ^ 53 / 2 := by norm_num
      linarith [habs1.1]
    have hr1hi : r1 < 2 ^ 54 := by
      have : (2 : ℚ) ^ 54 = 2 * 2 ^ 53 := by norm_num
      linarith [habs1.2]
    -- the product
    obtain ⟨n2, d2, hn2, hd2, hmul, hq2⟩ := mul_eq_round hr1 h100 hr1pos (by norm_num)
    have hlo2 : (2 : ℚ) ^ (-1022 : Int) ≤ (n2 : ℚ) / d2 := by
      rw [hq2]
      calc (2 : ℚ) ^ (-1022 : Int) ≤ (2 : ℚ) ^ (-54 : Int) :=
            zpow_le_zpow_right₀ (by norm_num) (by norm_num)
        _ = 1 / 2 ^ 54 := by norm_num
        _ ≤ r1 := hr1lo
        _ ≤ r1 * 100 := by linarith
    have hhi2 : (n2 : ℚ) / d2 < (2 : ℚ) ^ (1023 : Int) := by
      rw [hq2]
      calc r1 * 100 < 2 ^ 54 * 100 := by linarith
        _ ≤ (2 : ℚ) ^ (61 : Int) := by norm_num
        _ ≤ (2 : ℚ) ^ (1023 : Int) := zpow_le_zpow_right₀ (by norm_num) (by norm_num)
    obtain ⟨r2, hr2, hacc2⟩ := round_normal n2 d2 hn2 hd2 hlo2 hhi2
    rw [hq2, hε] at hacc2
    rw [← hmul] at hr2
    have habs2 := abs_le.mp hacc2
    refine ⟨r2, hr2, ?_, ?_⟩
    · rw [hε51, abs_le]
      have h1 : r1 ≤ 2 * ((a : ℚ) / b) := by linarith [habs1.2]
      constructor <;> linarith [habs1.1, habs1.2, habs2.1, habs2.2]
    · intro hab
      have habq : (a : ℚ) ≤ b := by exact_mod_cast hab
      have hq1 : (n : ℚ) / d ≤ 1 := by
        rw [hq, div_le_one hbq]; exact habq
      have hnd : n ≤ 1 * d := by
        have hdq : (0 : ℚ) < d := by exact_mod_cast hd
        have : (n : ℚ) ≤ d := by rwa [div_le_one hdq] at hq1
        rw [one_mul]
        exact_mod_cast this
      have hnd53 : (n : ℚ) / d < (2 : ℚ) ^ (53 : Int) := by
        calc (n : ℚ) / d ≤ 1 := hq1
          _ < (2 : ℚ) ^ (53 : Int) := by norm_num
      obtain ⟨r1', hr1', hle1⟩ := round_le_nat n d 1 hn hd hnd hnd53
      rw [← hdiv] at hr1'
      have hr1eq : r1 = r1' := hr1.unique hr1'
      have hr1le : r1 ≤ 1 := by rw [hr1eq]; simpa using hle1
      have hq2le : (n2 : ℚ) / d2 ≤ 100 := by rw [hq2]; linarith
      have hnd2 : n2 ≤ 100 * d2 := by
        have hdq : (0 : ℚ) < d2 := by exact_mod_cast hd2
        have : (n2 : ℚ) ≤ 100 * d2 := by rwa [div_le_iff₀ hdq] at hq2le
        exact_mod_cast this
      have hnd253 : (n2 : ℚ) / d2 < (2 : ℚ) ^ (53 : Int) := by
        calc (n2 : ℚ) / d2 ≤ 100 := hq2le
          _ < (2 : ℚ) ^ (53 : Int) := by norm_num
      obtain ⟨r2', hr2', hle2⟩ := round_le_nat n2 d2 100 hn2 hd2 hnd2 hnd253
      rw [← hmul] at hr2'
      have hr2eq : r2 = r2' := hr2.unique hr2'
      rw [hr2eq]
      simpa using hle2

/-! ## Claims about the utilization -/

/-- The utilization computed from the closed-form counters of a list of agent records of
the expected shape. -/
theorem agentStats_utilization (agents : List Value)
    (h : ∀ a ∈ agents, wellFormedAgent a = true) (hen : 0 < countOf isEnabled agents)
    (hlen : agents.length < 2 ^ 53) :
    ∃ s u, agentStats agents = .returned s ∧
      s.activeAgents = countOf (hasField "assignedRequest") agents ∧
      s.enabledAgents = countOf isEnabled agents ∧
      s.idleAgents = (agents.length : Int) - countOf (hasField "assignedRequest") agents ∧
      s.agentUtilization = F64.mul (F64.div (F64.ofInt s.activeAgents)
        (F64.ofInt s.enabledAgents)) (F64.ofInt 100) ∧
      s.agentUtilization.toRat? = some u ∧
      |u - (s.activeAgents : ℚ) / (s.enabledAgents : ℚ) * 100| ≤
        (s.activeAgents : ℚ) / (s.enabledAgents : ℚ) * 100 * (2 : ℚ) ^ (-51 : Int) ∧
      0 ≤ u ∧ (s.activeAgents ≤ s.enabledAgents → u ≤ 100) := by
  have ha : agents.countP hasAssignedRequest < 2 ^ 53 :=
    lt_of_le_of_lt (List.countP_le_length _) hlen
  have hb : agents.countP isEnabled < 2 ^ 53 :=
    lt_of_le_of_lt (List.countP_le_length _) hlen
  have hb0 : 0 < agents.countP isEnabled := by
    unfold countOf at hen
    exact_mod_cast hen
  obtain ⟨u, hu, hacc, hle⟩ := utilization_spec _ _ ha hb0 hb
  refine ⟨_, u, agentStats_wellFormed agents h, rfl, rfl, rfl, rfl, hu.toRat, ?_, hu.nonneg, ?_⟩
  · simpa [agentSummary, countOf] using hacc
  · intro hab
    apply hle
    simp only [agentSummary, countOf] at hab
    exact_mod_cast hab

/-- C3: on an agent response of the expected shape with `enabledAgents > 0`,
`agentUtilization` is `activeAgents / enabledAgents * 100` computed in `float64` (so
within a relative error of `2 ^ -51` of the exact value), where `activeAgents` is the
number of records in which the key `assignedRequest` is present. For 10 agents, 6 of them
enabled and 4 with `assignedRequest`, `activeAgents = 4`, `idleAgents = 6` and
`agentUtilization` is the `float64` value of `4 / 6 * 100`, which is
`4691249611844266 / 2 ^ 46`, within `10 ^ -13` of `200 / 3`, about `66.67`. The bound on
the length holds for every slice that fits in memory. -/
theorem agent_utilization_formula (agents : List Value)
    (h : ∀ a ∈ agents, wellFormedAgent a = true) (hen : 0 < countOf isEnabled agents)
    (hlen : agents.length < 2 ^ 53) :
    ∃ s u, agentStats agents = .returned s ∧
      s.activeAgents = countOf (hasField "assignedRequest") agents ∧
      s.enabledAgents = countOf isEnabled agents ∧
      s.agentUtilization = F64.mul (F64.div (F64.ofInt s.activeAgents)
        (F64.ofInt s.enabledAgents)) (F64.ofInt 100) ∧
      s.agentUtilization.toRat? = some u ∧
      |u - (s.activeAgents : ℚ) / (s.enabledAgents : ℚ) * 100| ≤
        (s.activeAgents : ℚ) / (s.enabledAgents : ℚ) * 100 * (2 : ℚ) ^ (-51 : Int) ∧
      (agents.length = 10 → countOf isEnabled agents = 6 →
        countOf (hasField "assignedRequest") agents = 4 →
          s.activeAgents = 4 ∧ s.idleAgents = 6 ∧
          u = 4691249611844266 / 2 ^ 46 ∧ |u - 200 / 3| < 1 / 10 ^ 13) := by
  obtain ⟨s, u, hs, hact, hena, hidle, hutil, hu, hacc, _, _⟩ :=
    agentStats_utilization agents h hen hlen
  refine ⟨s, u, hs, hact, hena, hutil, hu, hacc, ?_⟩
  intro h10 h6 h4
  have hval : F64.mul (F64.div (F64.ofInt 4) (F64.ofInt 6)) (F64.ofInt 100) =
      .fin false 4691249611844266 (-46) := by decide
  have hu' : u = 4691249611844266 / 2 ^ 46 := by
    rw [hutil, hact, hena, h4, h6, hval] at hu
    simp only [F64.toRat?, Option.some.injEq] at hu
    rw [← hu]
    norm_num
  refine ⟨by rw [hact, h4], by rw [hidle, h10, h4]; norm_num, hu', ?_⟩
  rw [hu', abs_lt]
  constructor <;> norm_num

/-- Witness of C3: the ten-agent fixture. -/
theorem agent_utilization_formula_witness :
    ∃ s, agentStats tenAgents = .returned s ∧ s.activeAgents = 4 ∧ s.idleAgents = 6 ∧
      s.agentUtilization.toRat? = some (4691249611844266 / 2 ^ 46) := by
  obtain ⟨s, u, hs, _, _, _, hu, _, hex⟩ :=
    agent_utilization_formula tenAgents (by decide) (by decide) (by decide)
  obtain ⟨h4, h6, hu', _⟩ := hex (by decide) (by decide) (by decide)
  exact ⟨s, hs, h4, h6, by rw [hu, hu']⟩

/-- C10, as amended: on an agent response of the expected shape with `enabledAgents > 0`,
`agentUtilization` is `float64(activeAgents) / float64(enabledAgents) * 100`, the division
first and the product second, each rounded to `float64`, where `activeAgents` counts every
agent with `assignedRequest` present, enabled or not. That value is within a relative
error of `2 ^ -51` of the exact `100 * activeAgents / enabledAgents`; it is never negative,
and it is at most `100` whenever `activeAgents ≤ enabledAgents`, which holds in particular
when every agent with an assigned request is enabled. -/
theorem utilization_counts_every_active_agent (agents : List Value)
    (h : ∀ a ∈ agents, wellFormedAgent a = true) (hen : 0 < countOf isEnabled agents)
    (hlen : agents.length < 2 ^ 53) :
    ∃ s u, agentStats agents = .returned s ∧
      s.activeAgents = countOf (hasField "assignedRequest") agents ∧
      s.enabledAgents = countOf isEnabled agents ∧
      s.agentUtilization = F64.mul (F64.div
        (F64.ofInt (countOf (hasField "assignedRequest") agents))
        (F64.ofInt (countOf isEnabled agents))) (F64.ofInt 100) ∧
      s.agentUtilization.toRat? = some u ∧
      |u - 100 * (countOf (hasField "assignedRequest") agents : ℚ) /
          (countOf isEnabled agents : ℚ)| ≤
        100 * (countOf (hasField "assignedRequest") agents : ℚ) /
          (countOf isEnabled agents : ℚ) * (2 : ℚ) ^ (-51 : Int) ∧
      0 ≤ u ∧
      (countOf (hasField "assignedRequest") agents ≤ countOf isEnabled agents → u ≤ 100) ∧
      ((∀ a ∈ agents, hasField "assignedRequest" a = true → isEnabled a = true) → u ≤ 100) := by
  obtain ⟨s, u, hs, hact, hena, _, hutil, hu, hacc, hnn, hle⟩ :=
    agentStats_utilization agents h hen hlen
  rw [hact, hena] at hacc hle hutil
  refine ⟨s, u, hs, hact, hena, hutil, hu, ?_, hnn, hle, ?_⟩
  · have hrew : 100 * (countOf (hasField "assignedRequest") agents : ℚ) /
        (countOf isEnabled agents : ℚ) =
        (countOf (hasField "assignedRequest") agents : ℚ) /
          (countOf isEnabled agents : ℚ) * 100 := by ring
    rw [hrew]
    exact hacc
  · intro hall
    apply hle
    unfold countOf
    have : agents.countP (hasField "assignedRequest") ≤ agents.countP isEnabled :=
      List.countP_mono_left (fun a ha hp => hall a ha hp)
    exact_mod_cast this

/-- Witness of C10 as amended: the ten-agent fixture, where one disabled agent holds an
assigned request and four agents are active among six enabled ones. -/
theorem utilization_counts_every_active_agent_witness :
    ∃ s u, agentStats tenAgents = .returned s ∧
      s.agentUtilization = .fin false 4691249611844266 (-46) ∧
      s.agentUtilization.toRat? = some u ∧ 0 ≤ u ∧ u ≤ 100 := by
  obtain ⟨s, u, hs, _, _, hutil, hu, _, hnn, hle, _⟩ :=
    utilization_counts_every_active_agent tenAgents (by decide) (by decide) (by decide)
  refine ⟨s, u, hs, ?_, hu, hnn, hle (by decide)⟩
  rw [hutil]
  decide

/-- Counterexample to C10 as stated: one enabled, idle agent and two disabled agents with
an assigned request. No enabled agent is active, so the stated value is `100 * 0 / 1 = 0`;
the code computes `2 / 1 * 100 = 200`, which is also above `100`. -/
theorem utilization_counterexample :
    (∀ a ∈ busyDisabledAgents, wellFormedAgent a = true) ∧
      ∃ s u, agentStats busyDisabledAgents = .returned s ∧
        s.agentUtilization.toRat? = some u ∧ s.enabledAgents = 1 ∧
        countOf (fun a => isEnabled a && hasField "assignedRequest" a) busyDisabledAgents = 0 ∧
        u = 200 ∧
        u ≠ 100 * (countOf (fun a => isEnabled a && hasField "assignedRequest" a)
          busyDisabledAgents : ℚ) / (s.enabledAgents : ℚ) ∧
        ¬ (u ≤ 100) := by
  refine ⟨by decide, agentSummary ⟨3, 2, 1, 2, 2, 1⟩, 200, by decide, ?_, rfl, by decide, rfl,
    ?_, by norm_num⟩
  · have hval : (agentSummary ⟨3, 2, 1, 2, 2, 1⟩).agentUtilization =
        .fin false 7036874417766400 (-45) := by decide
    rw [hval]
    simp only [F64.toRat?, Option.some.injEq]
    norm_num
  · have hc : countOf (fun a => isEnabled a && hasField "assignedRequest" a)
        busyDisabledAgents = 0 := by decide
    rw [hc]
    norm_num

end ADOProfiler
